import Mathlib

/-!
Verification of the BZ2 `.msh` binary codec (`bz2msh.py`).

The development shallowly embeds the codec: a byte stream is a `List Nat`
(one entry per byte), a parser is a function from the stream and a cursor
position to `Except MshErr (result × new position)`, and the writer side
produces byte lists.  Fixed-size `ctypes` records that the codec never
inspects field-by-field (vectors, colors, matrices, planes, animation keys,
the bounding sphere, `BlockInfo`, `MSH_Header`) are modelled as their
little-endian integer value together with their byte width, since
`f.readinto` / `f.write` treat them as opaque byte blobs.

One deliberate divergence from CPython semantics, marked at each use:
`f.readinto(x)` on a truncated stream fills only the available bytes and
leaves the rest of `x` stale, while this model raises the distinguished
error `MshErr.truncated`.  The single place where a verified claim depends
on truncation behaviour is the trailing end-of-block marker check, and
there the stale-buffer semantics provably coincides with raising
`InvalidFormat` (the stale value is the previously read `MSH_END` marker,
whose bytes can never combine with a partial read into `MSH_EOF`), which is
how `checkEof` models it.
-/

set_option maxHeartbeats 1000000
set_option maxRecDepth 4000

namespace Bz2msh

/-! ## Byte-level primitives -/

/-- Little-endian value of a byte list. -/
def leVal : List Nat → Nat
  | [] => 0
  | b :: t => b + 256 * leVal t

/-- The `n` little-endian bytes of `v` (i.e. of `v % 2^(8*n)`). -/
def leBytes : Nat → Nat → List Nat
  | 0, _ => []
  | n + 1, v => v % 256 :: leBytes n (v / 256)

/-- The bytes `d[p : p+n]`. -/
def grab (d : List Nat) (p n : Nat) : List Nat := (d.drop p).take n

inductive MshErr where
  | zeroLengthName
  | unknownBlock (value : Nat)
  | invalidFormat
  | truncated
deriving DecidableEq, Repr

/-- A parser over a byte stream: given the stream and a cursor position it
either fails or returns a value and the new cursor position. -/
def P (α : Type) : Type := List Nat → Nat → Except MshErr (α × Nat)

instance : Monad P where
  pure a := fun _ p => .ok (a, p)
  bind x f := fun d p => match x d p with
    | .ok (a, p') => f a d p'
    | .error e => .error e

theorem P.bind_ok {α β : Type} {x : P α} {f : α → P β} {d : List Nat} {p : Nat} {a : α} {q : Nat}
    (h : x d p = .ok (a, q)) : (x >>= f) d p = f a d q := by
  show (match x d p with | .ok (a, p') => f a d p' | .error e => .error e) = _
  rw [h]

theorem P.bind_err {α β : Type} {x : P α} {f : α → P β} {d : List Nat} {p : Nat} {e : MshErr}
    (h : x d p = .error e) : (x >>= f) d p = .error e := by
  show (match x d p with | .ok (a, p') => f a d p' | .error e => .error e) = _
  rw [h]

theorem P.pure_def {α : Type} (a : α) (d : List Nat) (p : Nat) :
    (pure a : P α) d p = .ok (a, p) := rfl

/-- Model of `f.readinto` on a fixed-width little-endian field of `n` bytes.
Divergence note: on a truncated stream CPython's `readinto` silently fills
only the available bytes; this model fails with `.truncated` instead. -/
def readBlob (n : Nat) : P Nat := fun d p =>
  if p + n ≤ d.length then .ok (leVal (grab d p n), p + n) else .error .truncated

def readU32 : P Nat := readBlob 4

def readU16 : P Nat := readBlob 2

/-- Model of the 3-line name-reading pattern shared by `Block.read`,
`Mesh.read`, `Material.read`, `Texture.read` and `AnimList.read`:
a `c_uint16` length `L`, then `f.read(L)[0:-1].decode("ascii", "ignore")`.
`f.read` returns at most the available bytes; `[0:-1]` drops the trailing
terminator; the "ignore" ASCII decode drops every byte `≥ 128`. -/
def readName : P (List Nat) := fun d p =>
  match readU16 d p with
  | .error e => .error e
  | .ok (L, p1) =>
    .ok (((grab d p1 L).dropLast).filter (fun b => b < 128), p1 + min L (d.length - p1))

/-! ## Marker constants (`bz2msh.py` lines 8-14) -/

def MSH_END_OF_OPTIONALS : Nat := 0x9709513F
def MSH_MATERIAL : Nat := 0x9709513E
def MSH_TEXTURE : Nat := 0x7951FC0B
def MSH_CHILD : Nat := 0xF74C51EE
def MSH_SIBLING : Nat := 0xB8990880
def MSH_END : Nat := 0xA93EB864
def MSH_EOF : Nat := 0xE3BB47F1

/-- `MSH.write` line 812: the end-of-optionals sentinel is never emitted. -/
def DISABLE_END_OF_OPTIONALS : Bool := true

/-! ## Data model

Byte-blob fields carry their little-endian integer value; the byte widths
are fixed at the read/write sites (`Vector` 12, `UVPair` 8, `Vertex` 32,
`ColorValue` 16, `Color` 4, `Matrix` 64, `AnimKey` 36, `Sphere` 80,
`BlockInfo` 8, `MSH_Header` 28, `FaceObj` 20, `Plane` 16). -/

structure Material where
  name : List Nat
  diffuse : Nat
  specular : Nat
  specular_power : Nat
  emissive : Nat
  ambient : Nat
deriving Repr

structure Texture where
  name : List Nat
  texture_type : Nat
  mipmaps : Nat
deriving Repr

structure VertGroup where
  state_index : Nat
  vert_count : Nat
  index_count : Nat
  plane_index : Nat
  material : Option Material
  texture : Option Texture
  end_marker : Bool
deriving Repr

structure BuckyDesc where
  flags : Nat
  vert_count : Nat
  index_count : Nat
  material : Option Material
  texture : Option Texture
  end_marker : Bool
deriving Repr

structure VertIndex where
  weight : Nat
  index : Nat
deriving Repr

structure VertIndexContainer where
  count : Nat
  array : List VertIndex
deriving Repr

structure Anim where
  index : Nat
  max_frame : Nat
  states : List Nat
deriving Repr

structure AnimList where
  name : List Nat
  anim_type : Nat
  max_frame : Nat
  end_frame : Nat
  states : List Nat
  animations : List Anim
deriving Repr

structure MeshBody where
  name : List Nat
  state_index : Nat
  is_single_geom : Nat
  renderflags : Nat
  matrix : Nat
  vert_colors : List Nat
  planes : List Nat
  vertex : List Nat
  vert_groups : List VertGroup
  indices : List Nat
deriving Repr

/- One node of the local-mesh hierarchy, as the decoded object graph holds
it: the scalar/array body plus the `child` and `sibling` ownership edges.
`OMesh` is the optional-mesh reference (Python `None` / a `Mesh` object);
a dedicated mutual type rather than `Option Mesh` so that recursive
functions over the tree unfold definitionally. -/
mutual
inductive Mesh where
  | mk (body : MeshBody) (child : OMesh) (sibling : OMesh)
inductive OMesh where
  | none
  | some (m : Mesh)
end

def OMesh.isNone : OMesh → Bool
  | .none => true
  | .some _ => false

def Mesh.body : Mesh → MeshBody | .mk b _ _ => b
def Mesh.child : Mesh → OMesh | .mk _ c _ => c
def Mesh.sibling : Mesh → OMesh | .mk _ _ s => s

/-- Decode-time representation of one mesh object: the Python decoder
mutates `Mesh` objects in place through the `mesh_at` stack, which the
functional model renders as an arena of nodes whose `child`/`sibling`
edges are arena indices (the spec's §9 suggests exactly this arena). -/
structure MeshNode where
  body : MeshBody
  child : Option Nat
  sibling : Option Nat
deriving Repr

structure BlockHeader where
  fileType : Nat
  verID : Nat
  blockCount : Nat
  notUsed : Nat
deriving Repr

structure Block where
  block_info : Nat
  name : List Nat
  sphere : Nat
  msh_header : Nat
  vertices : List Nat
  vertex_normals : List Nat
  uvs : List Nat
  vert_colors : List Nat
  faces : List Nat
  buckydescriptions : List BuckyDesc
  vert_to_state : List VertIndexContainer
  vert_groups : List VertGroup
  indices : List Nat
  planes : List Nat
  state_matrices : List Nat
  states : List Nat
  animation_list : List AnimList
  root : Mesh

structure MSH where
  block_header : BlockHeader
  blocks : List Block

/-! ## Decoders -/

/-- `Material.read` (lines 394-402). -/
def readMaterial : P Material := do
  let nm ← readName
  let dif ← readBlob 16
  let spe ← readBlob 16
  let spw ← readBlob 4
  let emi ← readBlob 16
  let amb ← readBlob 16
  pure ⟨nm, dif, spe, spw, emi, amb⟩

/-- `Texture.read` (lines 427-432). -/
def readTexture : P Texture := do
  let nm ← readName
  let tt ← readU32
  let mm ← readU32
  pure ⟨nm, tt, mm⟩

/-- One tag-peek stanza of `read_optional_blocks`: read a 4-byte tag; on a
match parse the record body, otherwise rewind the cursor by 4 bytes
(`f.seek(f.tell() - sizeof(c_uint32))`) and report absence. -/
def probe (tag : Nat) (body : P α) : P (Option α) := fun d p =>
  match readU32 d p with
  | .error e => .error e
  | .ok (v, p1) =>
    if v = tag then
      match body d p1 with
      | .error e => .error e
      | .ok (a, p2) => .ok (some a, p2)
    else .ok (none, p)

/-- The end-of-optionals stanza: tag consumed and flag set on a match,
cursor rewound otherwise. -/
def probeFlag (tag : Nat) : P Bool := fun d p =>
  match readU32 d p with
  | .error e => .error e
  | .ok (v, p1) => if v = tag then .ok (true, p1) else .ok (false, p)

/-- `read_optional_blocks` (lines 86-110): three tag peeks in fixed order
(material, texture, end-of-optionals), each rewound by 4 bytes when the tag
does not match. -/
def read_optional_blocks : P (Option Material × Option Texture × Bool) := do
  let material ← probe MSH_MATERIAL readMaterial
  let texture ← probe MSH_TEXTURE readTexture
  let had_end_marker ← probeFlag MSH_END_OF_OPTIONALS
  pure (material, texture, had_end_marker)

/-- `VertGroup.read` (lines 356-361). -/
def readVertGroup : P VertGroup := do
  let si ← readU32
  let vc ← readU32
  let ic ← readU32
  let pi ← readU32
  let mte ← read_optional_blocks
  pure ⟨si, vc, ic, pi, mte.1, mte.2.1, mte.2.2⟩

/-- `BuckyDesc.read` (lines 321-325): note the on-disk order is
`flags`, `index_count`, `vert_count`. -/
def readBuckyDesc : P BuckyDesc := do
  let fl ← readU32
  let ic ← readU32
  let vc ← readU32
  let mte ← read_optional_blocks
  pure ⟨fl, vc, ic, mte.1, mte.2.1, mte.2.2⟩

/-- Read `n` elements in sequence (the Python `for _ in range(count)` loops). -/
def readList (elem : P α) : Nat → P (List α)
  | 0 => pure []
  | n + 1 => do
    let x ← elem
    let xs ← readList elem n
    pure (x :: xs)

/-- A `c_uint32` count immediately followed by that many elements. -/
def readCounted (elem : P α) : P (List α) := do
  let n ← readU32
  readList elem n

/-- One skin-weight pair (`Block.read` lines 680-685): read field by field,
a 4-byte float then a 2-byte index — 6 bytes total, never a padded struct. -/
def readVertIndex : P VertIndex := do
  let w ← readBlob 4
  let i ← readBlob 2
  pure ⟨w, i⟩

/-- One `VertIndexContainer` (`Block.read` lines 677-687): a `c_uint32`
count then that many weight/index pairs; the count is stored. -/
def readVtsContainer : P VertIndexContainer := do
  let n ← readU32
  let arr ← readList readVertIndex n
  pure ⟨n, arr⟩

/-- The skin-weight table (`Block.read` lines 673-687). -/
def readVertToState : P (List VertIndexContainer) := readCounted readVtsContainer

/-- `Anim.read` (lines 454-461). -/
def readAnim : P Anim := do
  let ix ← readU32
  let mf ← readBlob 4
  let st ← readCounted (readBlob 36)
  pure ⟨ix, mf, st⟩

/-- `AnimList.read` (lines 483-500). -/
def readAnimList : P AnimList := do
  let nm ← readName
  let ty ← readU32
  let mf ← readBlob 4
  let ef ← readBlob 4
  let st ← readCounted (readBlob 36)
  let an ← readCounted readAnim
  pure ⟨nm, ty, mf, ef, st, an⟩

/-- `Mesh.read` (lines 553-577), the fields after the name: `state_index`,
`is_single_geom` (a `c_int32`, carried as its 4-byte pattern), render
flags, the 64-byte matrix, and the five counted arrays. -/
def readMeshBodyRest (nm : List Nat) : P MeshBody := do
  let si ← readU32
  let sg ← readU32
  let rf ← readU32
  let mx ← readBlob 64
  let vc ← readCounted (readBlob 4)
  let pl ← readCounted (readBlob 16)
  let vx ← readCounted (readBlob 32)
  let vg ← readCounted readVertGroup
  let ix ← readCounted (readBlob 2)
  pure (MeshBody.mk nm si sg rf mx vc pl vx vg ix)

/-- `Mesh.read` (lines 543-577): the only record type that rejects a
zero-length decoded name. -/
def readMeshBody : P MeshBody := fun d p =>
  match readName d p with
  | .error e => .error e
  | .ok (nm, p1) =>
    if nm.length = 0 then .error .zeroLengthName
    else readMeshBodyRest nm d p1

def setChild (a : List MeshNode) (i j : Nat) : List MeshNode :=
  match a.get? i with
  | some n => a.set i ⟨n.body, some j, n.sibling⟩
  | none => a

def setSibling (a : List MeshNode) (i k : Nat) : List MeshNode :=
  match a.get? i with
  | some n => a.set i ⟨n.body, n.child, some k⟩
  | none => a

/-- The mesh-tree marker loop of `Block.read` (lines 718-752), with the
in-place mutations rendered as arena updates.  State: cursor, `in_mesh`
(open-node count), `indentation_level`, the `mesh_at` stack of arena
indices, and the arena itself.  The `END` case's
`while in_mesh < indentation_level: indentation_level -= 1` is the closed
form `min depth openCount`.  `fuel` only bounds iteration for
well-foundedness; the caller passes more fuel than bytes, and every
iteration consumes at least 4 bytes or ends the loop.
(The decoder's auxiliary `meshes` list and `level` counter — a derived,
read-only traversal view over the same child/sibling edges, consumed by
`walk` — are not modelled; the claims quantify over the ownership edges.) -/
def meshLoop (d : List Nat) :
    Nat → Nat → Nat → Nat → List Nat → List MeshNode → Except MshErr (List MeshNode × Nat)
  | fuel, pos, openCount, depth, stack, arena =>
    if openCount = 0 then .ok (arena, pos)
    else
      match fuel with
      | 0 => .error .truncated
      | fuel + 1 =>
        match readU32 d pos with
        | .error e => .error e
        | .ok (v, p1) =>
          if v = MSH_CHILD then
            match readMeshBody d p1 with
            | .error e => .error e
            | .ok (b, p2) =>
              let i := stack.getD depth 0
              let j := arena.length
              let arena' := setChild arena i j ++ [⟨b, none, none⟩]
              let depth' := depth + 1
              let stack' := if stack.length < depth' + 1 then stack ++ [j] else stack.set depth' j
              meshLoop d fuel p2 (openCount + 1) depth' stack' arena'
          else if v = MSH_SIBLING then
            match readMeshBody d p1 with
            | .error e => .error e
            | .ok (b, p2) =>
              let i := stack.getD depth 0
              let k := arena.length
              let arena' := setSibling arena i k ++ [⟨b, none, none⟩]
              let stack' := stack.set depth k
              meshLoop d fuel p2 (openCount + 1) depth stack' arena'
          else if v = MSH_END then
            meshLoop d fuel p1 (openCount - 1) (min depth (openCount - 1)) stack arena
          else .error (.unknownBlock v)

/-- Rebuild the recursive `Mesh` graph from the arena.  The loop only ever
links a node to later-created nodes, so `fuel = arena length + 1` always
suffices; `none` is unreachable on arenas the loop produces. -/
def materialize (a : List MeshNode) : Nat → Nat → Option Mesh
  | 0, _ => none
  | fuel + 1, i =>
    match a.get? i with
    | none => none
    | some n =>
      let oc := match n.child with
        | none => some OMesh.none
        | some j => (materialize a fuel j).map OMesh.some
      let os := match n.sibling with
        | none => some OMesh.none
        | some k => (materialize a fuel k).map OMesh.some
      match oc, os with
      | some c, some s => some (.mk n.body c s)
      | _, _ => none

/-- Lines 715-752: parse the root body, run the marker loop, rebuild the
tree. -/
def readMeshTree : P Mesh := fun d p =>
  match readMeshBody d p with
  | .error e => .error e
  | .ok (b, p1) =>
    match meshLoop d (d.length + 1) p1 1 0 [0] [⟨b, none, none⟩] with
    | .error e => .error e
    | .ok (arena, p2) =>
      match materialize arena (arena.length + 1) 0 with
      | some m => .ok (m, p2)
      | none => .error .truncated

/-- Lines 754-757: the trailing end-of-block marker check.  A truncated
read is reported as `InvalidFormat`: CPython's `readinto` would leave the
reused `block_type` buffer holding bytes of the just-consumed `MSH_END`
marker (`64 B8 3E A9`), and no partial overwrite of them can equal
`MSH_EOF` (`F1 47 BB E3`), so the comparison on line 756 fails there too. -/
def checkEof : P Unit := fun d p =>
  match readU32 d p with
  | .error _ => .error .invalidFormat
  | .ok (v, p') => if v = MSH_EOF then .ok ((), p') else .error .invalidFormat

/-- `Block.read` (lines 638-752), everything before the trailing
end-of-block marker check. -/
def readBlockCore : P Block := do
  let bi ← readBlob 8
  let nm ← readName
  let sp ← readBlob 80
  let mh ← readBlob 28
  let vs ← readCounted (readBlob 12)
  let ns ← readCounted (readBlob 12)
  let uv ← readCounted (readBlob 8)
  let cl ← readCounted (readBlob 4)
  let fc ← readCounted (readBlob 20)
  let bd ← readCounted readBuckyDesc
  let ts ← readVertToState
  let vg ← readCounted readVertGroup
  let ix ← readCounted (readBlob 2)
  let pl ← readCounted (readBlob 16)
  let sm ← readCounted (readBlob 64)
  let st ← readCounted (readBlob 36)
  let al ← readCounted readAnimList
  let rt ← readMeshTree
  pure ⟨bi, nm, sp, mh, vs, ns, uv, cl, fc, bd, ts, vg, ix, pl, sm, st, al, rt⟩

/-- `Block.read` (lines 638-757). -/
def readBlock : P Block := do
  let bk ← readBlockCore
  let _ ← checkEof
  pure bk

/-- `BlockHeader` (lines 235-241): `fileType` 4 bytes, `verID` and
`blockCount` 4 bytes each, `notUsed` 32 bytes. -/
def readBlockHeader : P BlockHeader := do
  let ft ← readBlob 4
  let vi ← readBlob 4
  let bc ← readBlob 4
  let nu ← readBlob 32
  pure ⟨ft, vi, bc, nu⟩

/-- `MSH.read` (lines 803-808): the header, then exactly `blockCount`
blocks. -/
def readMSH : P MSH := do
  let h ← readBlockHeader
  let bs ← readList readBlock h.blockCount
  pure ⟨h, bs⟩

/-- Whole-file decode from the start of the stream. -/
def decodeMSH (d : List Nat) : Except MshErr (MSH × Nat) := readMSH d 0

/-! ## Encoders (`MSH.write`, lines 810-947) -/

/-- `write_name` (lines 819-822): `c_uint16(len(name)+1)` then the name
bytes and a null terminator. -/
def write_name (name : List Nat) : List Nat := leBytes 2 (name.length + 1) ++ name ++ [0]

/-- The material record body following its tag (`write_optionals`,
lines 826-832). -/
def writeMaterialBody (m : Material) : List Nat :=
  write_name m.name ++ leBytes 16 m.diffuse ++ leBytes 16 m.specular ++
    leBytes 4 m.specular_power ++ leBytes 16 m.emissive ++ leBytes 16 m.ambient

/-- The texture record body following its tag (`write_optionals`,
lines 835-838). -/
def writeTextureBody (t : Texture) : List Nat :=
  write_name t.name ++ leBytes 4 t.texture_type ++ leBytes 4 t.mipmaps

/-- `write_optionals` (lines 824-841): present slots in order, and the
end-of-optionals sentinel only when the (always-on) suppression policy is
off. -/
def write_optionals (material : Option Material) (texture : Option Texture)
    (end_marker : Bool) : List Nat :=
  (match material with
   | some m => leBytes 4 MSH_MATERIAL ++ writeMaterialBody m
   | none => []) ++
  (match texture with
   | some t => leBytes 4 MSH_TEXTURE ++ writeTextureBody t
   | none => []) ++
  (if end_marker && !DISABLE_END_OF_OPTIONALS then leBytes 4 MSH_END_OF_OPTIONALS else [])

/-- `write_vert_group` (lines 843-848). -/
def writeVertGroup (v : VertGroup) : List Nat :=
  leBytes 4 v.state_index ++ leBytes 4 v.vert_count ++ leBytes 4 v.index_count ++
    leBytes 4 v.plane_index ++ write_optionals v.material v.texture v.end_marker

/-- Bucky-descriptor encoding (lines 900-904): `flags`, `index_count`,
`vert_count`, then optionals. -/
def writeBuckyDesc (b : BuckyDesc) : List Nat :=
  leBytes 4 b.flags ++ leBytes 4 b.index_count ++ leBytes 4 b.vert_count ++
    write_optionals b.material b.texture b.end_marker

/-- A `c_uint32(len(l))` count prefix followed by the encoded elements. -/
def writeCounted (wr : α → List Nat) (l : List α) : List Nat :=
  leBytes 4 l.length ++ (l.map wr).flatten

/-- One skin-weight container (lines 907-911): the prefix is the *stored*
`count` field, the records written are the array elements. -/
def writeVtsContainer (c : VertIndexContainer) : List Nat :=
  leBytes 4 c.count ++ (c.array.map (fun v => leBytes 4 v.weight ++ leBytes 2 v.index)).flatten

/-- Anim encoding (lines 935-939). -/
def writeAnim (a : Anim) : List Nat :=
  leBytes 4 a.index ++ leBytes 4 a.max_frame ++ writeCounted (leBytes 36) a.states

/-- AnimList encoding (lines 927-939). -/
def writeAnimList (al : AnimList) : List Nat :=
  write_name al.name ++ leBytes 4 al.anim_type ++ leBytes 4 al.max_frame ++
    leBytes 4 al.end_frame ++ writeCounted (leBytes 36) al.states ++
    writeCounted writeAnim al.animations

/-- The body part of `write_mesh` after the name (lines 852-868). -/
def writeMeshBodyRest (b : MeshBody) : List Nat :=
  leBytes 4 b.state_index ++ leBytes 4 b.is_single_geom ++
    leBytes 4 b.renderflags ++ leBytes 64 b.matrix ++
    writeCounted (leBytes 4) b.vert_colors ++ writeCounted (leBytes 16) b.planes ++
    writeCounted (leBytes 32) b.vertex ++ writeCounted writeVertGroup b.vert_groups ++
    writeCounted (leBytes 2) b.indices

/-- The body part of `write_mesh` (lines 851-868). -/
def writeMeshBody (b : MeshBody) : List Nat :=
  write_name b.name ++ writeMeshBodyRest b

/- `write_mesh` (lines 850-878): body; `CHILD` marker and child subtree if
present; an `END` marker always; `SIBLING` marker and sibling subtree if
present. -/
mutual
def writeMesh : Mesh → List Nat
  | .mk b c s =>
    writeMeshBody b ++ (writeChildPart c ++ (leBytes 4 MSH_END ++ writeSiblingPart s))
def writeChildPart : OMesh → List Nat
  | .none => []
  | .some m => leBytes 4 MSH_CHILD ++ writeMesh m
def writeSiblingPart : OMesh → List Nat
  | .none => []
  | .some m => leBytes 4 MSH_SIBLING ++ writeMesh m
end

/-- Everything `write_mesh` emits after the node's own body. -/
def writeMeshTail (m : Mesh) : List Nat :=
  writeChildPart m.child ++ (leBytes 4 MSH_END ++ writeSiblingPart m.sibling)

theorem writeMesh_eq (m : Mesh) : writeMesh m = writeMeshBody m.body ++ writeMeshTail m := by
  cases m
  rfl

/-- One block's encoding (lines 882-944), the trailing `MSH_EOF` marker
included. -/
def writeBlock (bk : Block) : List Nat :=
  leBytes 8 bk.block_info ++ write_name bk.name ++ leBytes 80 bk.sphere ++
    leBytes 28 bk.msh_header ++
    writeCounted (leBytes 12) bk.vertices ++ writeCounted (leBytes 12) bk.vertex_normals ++
    writeCounted (leBytes 8) bk.uvs ++ writeCounted (leBytes 4) bk.vert_colors ++
    writeCounted (leBytes 20) bk.faces ++ writeCounted writeBuckyDesc bk.buckydescriptions ++
    writeCounted writeVtsContainer bk.vert_to_state ++
    writeCounted writeVertGroup bk.vert_groups ++ writeCounted (leBytes 2) bk.indices ++
    writeCounted (leBytes 16) bk.planes ++ writeCounted (leBytes 64) bk.state_matrices ++
    writeCounted (leBytes 36) bk.states ++ writeCounted writeAnimList bk.animation_list ++
    writeMesh bk.root ++ leBytes 4 MSH_EOF

def writeBlockHeader (h : BlockHeader) : List Nat :=
  leBytes 4 h.fileType ++ leBytes 4 h.verID ++ leBytes 4 h.blockCount ++ leBytes 32 h.notUsed

/-- `MSH.write` (lines 880-944): the declared block count is recomputed
from the held blocks (line 880) before the header is emitted. -/
def writeMSH (m : MSH) : List Nat :=
  writeBlockHeader ⟨m.block_header.fileType, m.block_header.verID, m.blocks.length,
      m.block_header.notUsed⟩ ++
    (m.blocks.map writeBlock).flatten

/-! ## The encoder's known-lossy field

With `DISABLE_END_OF_OPTIONALS` on, every `end_marker` flag decodes as
`false` after a re-encode; `clear*` maps a graph to that expected image. -/

def clearVG (v : VertGroup) : VertGroup :=
  ⟨v.state_index, v.vert_count, v.index_count, v.plane_index, v.material, v.texture, false⟩

def clearBucky (b : BuckyDesc) : BuckyDesc :=
  ⟨b.flags, b.vert_count, b.index_count, b.material, b.texture, false⟩

def clearBody (b : MeshBody) : MeshBody :=
  ⟨b.name, b.state_index, b.is_single_geom, b.renderflags, b.matrix, b.vert_colors,
    b.planes, b.vertex, b.vert_groups.map clearVG, b.indices⟩

mutual
def clearMesh : Mesh → Mesh
  | .mk b c s => .mk (clearBody b) (clearOMesh c) (clearOMesh s)
def clearOMesh : OMesh → OMesh
  | .none => .none
  | .some m => .some (clearMesh m)
end

def clearBlock (bk : Block) : Block :=
  ⟨bk.block_info, bk.name, bk.sphere, bk.msh_header, bk.vertices, bk.vertex_normals,
    bk.uvs, bk.vert_colors, bk.faces, bk.buckydescriptions.map clearBucky,
    bk.vert_to_state, bk.vert_groups.map clearVG, bk.indices, bk.planes,
    bk.state_matrices, bk.states, bk.animation_list, clearMesh bk.root⟩

def clearMSH (m : MSH) : MSH := ⟨m.block_header, m.blocks.map clearBlock⟩

/-! ## Well-formedness

`wf*` capture the invariants every graph produced by a successful decode
enjoys (field values within their on-disk byte widths, names ASCII and
short, skin-weight counts matching their arrays, list lengths below
`2^32`), plus the two conditions a decoded graph may genuinely violate and
without which the re-encoded stream is not faithfully re-decodable: the
root mesh of a block has no sibling, and no 32-bit field probed directly
after an optionals region equals one of the three optional tags. -/

/-- The probe value does not alias an optional-record tag. -/
def tagFree (x : Nat) : Bool :=
  x != MSH_MATERIAL && x != MSH_TEXTURE && x != MSH_END_OF_OPTIONALS

def wfName (n : List Nat) : Bool := n.length + 1 < 65536 && n.all (fun b => b < 128)

def wfMaterial (m : Material) : Bool :=
  wfName m.name && m.diffuse < 2 ^ 128 && m.specular < 2 ^ 128 &&
    m.specular_power < 2 ^ 32 && m.emissive < 2 ^ 128 && m.ambient < 2 ^ 128

def wfTexture (t : Texture) : Bool :=
  wfName t.name && t.texture_type < 2 ^ 32 && t.mipmaps < 2 ^ 32

def wfOpt (wf : α → Bool) : Option α → Bool
  | none => true
  | some x => wf x

def wfVG (v : VertGroup) : Bool :=
  v.state_index < 2 ^ 32 && v.vert_count < 2 ^ 32 && v.index_count < 2 ^ 32 &&
    v.plane_index < 2 ^ 32 && wfOpt wfMaterial v.material && wfOpt wfTexture v.texture

def wfBucky (b : BuckyDesc) : Bool :=
  b.flags < 2 ^ 32 && b.vert_count < 2 ^ 32 && b.index_count < 2 ^ 32 &&
    wfOpt wfMaterial b.material && wfOpt wfTexture b.texture

/-- After each list element, the decoder's optional probe sees the first
32-bit field of the next element, or `nxt` (the count field of the next
section) after the last element; `chainFree hv l nxt` demands that none of
those probe values aliases a tag. -/
def followVal (hv : α → Nat) (t : List α) (nxt : Nat) : Nat :=
  match t with
  | [] => nxt
  | y :: _ => hv y

def chainFree (hv : α → Nat) : List α → Nat → Bool
  | [], _ => true
  | _ :: t, nxt => tagFree (followVal hv t nxt) && chainFree hv t nxt

def wfVGList (vgs : List VertGroup) (nxt : Nat) : Bool :=
  vgs.all wfVG && chainFree (fun v => v.state_index) vgs nxt

def wfBuckyList (bs : List BuckyDesc) (nxt : Nat) : Bool :=
  bs.all wfBucky && chainFree (fun b => b.flags) bs nxt

def wfBlobList (n : Nat) (l : List Nat) : Bool :=
  l.length < 2 ^ 32 && l.all (fun v => v < 2 ^ (8 * n))

def wfVertIndex (v : VertIndex) : Bool := v.weight < 2 ^ 32 && v.index < 2 ^ 16

def wfVts (c : VertIndexContainer) : Bool :=
  c.count == c.array.length && c.count < 2 ^ 32 && c.array.all wfVertIndex

def wfAnim (a : Anim) : Bool :=
  a.index < 2 ^ 32 && a.max_frame < 2 ^ 32 && wfBlobList 36 a.states

def wfAnimList (al : AnimList) : Bool :=
  wfName al.name && al.anim_type < 2 ^ 32 && al.max_frame < 2 ^ 32 &&
    al.end_frame < 2 ^ 32 && wfBlobList 36 al.states &&
    al.animations.length < 2 ^ 32 && al.animations.all wfAnim

def wfMeshBody (b : MeshBody) : Bool :=
  wfName b.name && !b.name.isEmpty && b.state_index < 2 ^ 32 &&
    b.is_single_geom < 2 ^ 32 && b.renderflags < 2 ^ 32 && b.matrix < 2 ^ 512 &&
    wfBlobList 4 b.vert_colors && wfBlobList 16 b.planes && wfBlobList 32 b.vertex &&
    b.vert_groups.length < 2 ^ 32 && wfVGList b.vert_groups b.indices.length &&
    wfBlobList 2 b.indices

mutual
def wfMeshTree : Mesh → Bool
  | .mk b c s => wfMeshBody b && wfOMeshTree c && wfOMeshTree s
def wfOMeshTree : OMesh → Bool
  | .none => true
  | .some m => wfMeshTree m
end

def wfBlock (bk : Block) : Bool :=
  bk.block_info < 2 ^ 64 && wfName bk.name && bk.sphere < 2 ^ 640 &&
    bk.msh_header < 2 ^ 224 &&
    wfBlobList 12 bk.vertices && wfBlobList 12 bk.vertex_normals &&
    wfBlobList 8 bk.uvs && wfBlobList 4 bk.vert_colors && wfBlobList 20 bk.faces &&
    bk.buckydescriptions.length < 2 ^ 32 &&
    wfBuckyList bk.buckydescriptions bk.vert_to_state.length &&
    bk.vert_to_state.length < 2 ^ 32 && bk.vert_to_state.all wfVts &&
    bk.vert_groups.length < 2 ^ 32 && wfVGList bk.vert_groups bk.indices.length &&
    wfBlobList 2 bk.indices && wfBlobList 16 bk.planes &&
    wfBlobList 64 bk.state_matrices && wfBlobList 36 bk.states &&
    bk.animation_list.length < 2 ^ 32 && bk.animation_list.all wfAnimList &&
    wfMeshTree bk.root && bk.root.sibling.isNone

def wfHeader (h : BlockHeader) : Bool :=
  h.fileType < 2 ^ 32 && h.verID < 2 ^ 32 && h.blockCount < 2 ^ 32 && h.notUsed < 2 ^ 256

def wfMSH (m : MSH) : Bool :=
  wfHeader m.block_header && m.block_header.blockCount == m.blocks.length &&
    m.blocks.length < 2 ^ 32 && m.blocks.all wfBlock

/-! ## Tree-shape auxiliaries -/

mutual
def Mesh.size : Mesh → Nat
  | .mk _ c s => 1 + OMesh.size c + OMesh.size s
def OMesh.size : OMesh → Nat
  | .none => 0
  | .some m => Mesh.size m
end

/- Number of marker-loop iterations consumed by `writeMeshTail m`:
one per `CHILD`/`SIBLING`/`END` marker in it. -/
mutual
def tokens : Mesh → Nat
  | .mk _ c s => otokens c + 1 + otokens s
def otokens : OMesh → Nat
  | .none => 0
  | .some m => 1 + tokens m
end

/-- The sibling chain starting at an optional mesh. -/
def sibChain : OMesh → List Mesh
  | .none => []
  | .some (.mk b c s) => .mk b c s :: sibChain s

/-- The ordered child list of a node: its first child followed by that
child's siblings. -/
def childList (m : Mesh) : List Mesh := sibChain m.child

/- Arena index `i` holds (the cleared image of) the tree `m`, linked
through strictly increasing indices. -/
mutual
def Represents (a : List MeshNode) : Nat → Mesh → Prop
  | i, .mk b c s =>
    ∃ n, a.get? i = some n ∧ n.body = clearBody b ∧
      RepresentsO a i n.child c ∧ RepresentsO a i n.sibling s
def RepresentsO (a : List MeshNode) : Nat → Option Nat → OMesh → Prop
  | _, none, .none => True
  | i, some j, .some m => i < j ∧ Represents a j m
  | _, _, _ => False
end

/- Two meshes have the same tree shape: the same child/sibling skeleton,
bodies ignored. -/
mutual
def sameShape : Mesh → Mesh → Bool
  | .mk _ c s, .mk _ c2 s2 => sameShapeO c c2 && sameShapeO s s2
def sameShapeO : OMesh → OMesh → Bool
  | .none, .none => true
  | .some m, .some m2 => sameShape m m2
  | _, _ => false
end

/-! ## Concrete fixtures

Small graphs and byte streams used to instantiate the verified statements
on executable inputs. -/

/-- A minimal mesh body holding only a name. -/
def mb (nm : List Nat) : MeshBody := ⟨nm, 0, 0, 0, 0, [], [], [], [], []⟩

def m1 : Mesh := .mk (mb [97]) .none .none

def blk : Block := ⟨0, [98], 0, 0, [], [], [], [], [], [], [], [], [], [], [], [], [], m1⟩

def hdr : BlockHeader := ⟨0, 0, 1, 0⟩

def f1 : MSH := ⟨hdr, [blk]⟩

/-- A hand-laid stream whose mesh-tree section attaches a sibling to the
root node: root body, `SIBLING` marker, sibling body, two `END` markers. -/
def sStream : List Nat :=
  writeBlockHeader hdr ++
  (leBytes 8 0 ++ write_name [98] ++ leBytes 80 0 ++ leBytes 28 0 ++
   leBytes 4 0 ++ leBytes 4 0 ++ leBytes 4 0 ++ leBytes 4 0 ++ leBytes 4 0 ++
   leBytes 4 0 ++ leBytes 4 0 ++ leBytes 4 0 ++ leBytes 4 0 ++ leBytes 4 0 ++
   leBytes 4 0 ++ leBytes 4 0 ++ leBytes 4 0 ++
   writeMeshBody (mb [97]) ++
   leBytes 4 MSH_SIBLING ++ writeMeshBody (mb [99]) ++
   leBytes 4 MSH_END ++ leBytes 4 MSH_END ++
   leBytes 4 MSH_EOF)

/-- The graph `sStream` decodes to: its root mesh carries a sibling. -/
def rootS : Mesh := .mk (mb [97]) .none (.some (.mk (mb [99]) .none .none))

def blkS : Block := ⟨0, [98], 0, 0, [], [], [], [], [], [], [], [], [], [], [], [], [], rootS⟩

def exG : MSH := ⟨hdr, [blkS]⟩

/-- A block whose root mesh has exactly one child. -/
def rootW : Mesh := .mk (mb [97]) (.some (.mk (mb [99]) .none .none)) .none

def bkW : Block := ⟨0, [98], 0, 0, [], [], [], [], [], [], [], [], [], [], [], [], [], rootW⟩

def vgOK : VertGroup := ⟨0, 0, 0, 0, none, none, false⟩

/-- A vertex group whose `state_index` collides with the material tag. -/
def vgBad : VertGroup := ⟨MSH_MATERIAL, 0, 0, 0, none, none, false⟩

def mbBad : MeshBody := ⟨[99], 0, 0, 0, 0, [], [], [], [vgOK, vgBad], []⟩

def rootBad : Mesh := .mk (mb [97]) (.some (.mk mbBad .none .none)) .none

def bkBad : Block := ⟨0, [98], 0, 0, [], [], [], [], [], [], [], [], [], [], [], [], [], rootBad⟩

def matE : Material := ⟨[], 0, 0, 0, 0, 0⟩

/-- `writeBlock blk` with its trailing `MSH_EOF` marker zeroed out. -/
def dW : List Nat := (writeBlock blk).take ((writeBlock blk).length - 4) ++ [0, 0, 0, 0]

def vts0 : List VertIndexContainer := [⟨2, [⟨1, 2⟩, ⟨3, 4⟩]⟩, ⟨1, [⟨5, 6⟩]⟩]

/-- A skin-weight container whose stored count disagrees with its array. -/
def c0 : VertIndexContainer := ⟨7, []⟩

/-! ## Byte-level lemmas -/

theorem leBytes_length (n v : Nat) : (leBytes n v).length = n := by
  induction n generalizing v with
  | zero => rfl
  | succ k ih => simp [leBytes, ih]

theorem leVal_leBytes (n v : Nat) : leVal (leBytes n v) = v % 2 ^ (8 * n) := by
  induction n generalizing v with
  | zero => simp [leBytes, leVal, Nat.mod_one]
  | succ k ih =>
    have h256 : (2 : Nat) ^ (8 * (k + 1)) = 256 * 2 ^ (8 * k) := by
      rw [Nat.mul_add, pow_add]
      ring
    rw [leBytes, leVal, ih, h256, Nat.mod_mul]

theorem leVal_leBytes_of_lt {n v : Nat} (h : v < 2 ^ (8 * n)) : leVal (leBytes n v) = v := by
  rw [leVal_leBytes, Nat.mod_eq_of_lt h]

theorem grab_length {d : List Nat} {p n : Nat} (h : p + n ≤ d.length) :
    (grab d p n).length = n := by
  rw [grab, List.length_take, List.length_drop]
  omega

theorem grab_add (d : List Nat) (p a b : Nat) :
    grab d p (a + b) = grab d p a ++ grab d (p + a) b := by
  rw [grab, grab, grab, List.take_add, ← List.drop_drop]

theorem grab_split {d w1 w2 : List Nat} {p a b : Nat}
    (hb : p + (a + b) ≤ d.length) (hg : grab d p (a + b) = w1 ++ w2)
    (h1 : w1.length = a) :
    grab d p a = w1 ∧ grab d (p + a) b = w2 := by
  rw [grab_add] at hg
  have hl : (grab d p a).length = w1.length := by
    rw [grab_length (by omega), h1]
  exact List.append_inj hg hl

/-! ## The `Consumes` / `Peeks` specification framework

`Consumes f d p w v`: if the stream holds exactly the bytes `w` at
position `p`, parser `f` succeeds there with value `v` and stops right
after `w`.  `Peeks` additionally assumes the 4 bytes after `w` encode the
32-bit value `x` — for parsers ending in the optional-record probes, which
inspect (and rewind over) the 4 bytes following their own encoding. -/

def Consumes (f : P α) (d : List Nat) (p : Nat) (w : List Nat) (v : α) : Prop :=
  grab d p w.length = w → p + w.length ≤ d.length → f d p = .ok (v, p + w.length)

def Peeks (f : P α) (d : List Nat) (p : Nat) (w : List Nat) (x : Nat) (v : α) : Prop :=
  grab d p w.length = w → grab d (p + w.length) 4 = leBytes 4 x →
    p + w.length + 4 ≤ d.length → f d p = .ok (v, p + w.length)

theorem consumes_pure (v : α) (d : List Nat) (p : Nat) : Consumes (pure v) d p [] v := by
  intro _ _
  simpa using P.pure_def v d p

theorem consumes_bind {x : P α} {f : α → P β} {d : List Nat} {p : Nat}
    {w1 w2 : List Nat} {a : α} {b : β}
    (hx : Consumes x d p w1 a) (hf : Consumes (f a) d (p + w1.length) w2 b) :
    Consumes (x >>= f) d p (w1 ++ w2) b := by
  intro hg hb
  rw [List.length_append] at hg hb
  obtain ⟨g1, g2⟩ := grab_split (by omega) hg rfl
  rw [P.bind_ok (hx g1 (by omega)), List.length_append, ← Nat.add_assoc]
  exact hf g2 (by omega)

theorem consumes_bind_peeks {x : P α} {f : α → P β} {d : List Nat} {p : Nat}
    {w1 w2 : List Nat} {xv : Nat} {a : α} {b : β}
    (hx : Consumes x d p w1 a) (hf : Peeks (f a) d (p + w1.length) w2 xv b) :
    Peeks (x >>= f) d p (w1 ++ w2) xv b := by
  intro hg hpk hb
  rw [List.length_append] at hg hpk hb
  obtain ⟨g1, g2⟩ := grab_split (by omega) hg rfl
  rw [P.bind_ok (hx g1 (by omega)), List.length_append, ← Nat.add_assoc]
  refine hf g2 ?_ (by omega)
  rw [Nat.add_assoc]
  exact hpk

theorem peeks_bind_consumes {x : P α} {f : α → P β} {d : List Nat} {p : Nat}
    {w1 w2 : List Nat} {xv : Nat} {a : α} {b : β}
    (hx : Peeks x d p w1 xv a)
    (hf : Consumes (f a) d (p + w1.length) (leBytes 4 xv ++ w2) b) :
    Consumes (x >>= f) d p (w1 ++ (leBytes 4 xv ++ w2)) b := by
  intro hg hb
  have hlen2 : (leBytes 4 xv ++ w2).length = 4 + w2.length := by
    rw [List.length_append, leBytes_length]
  rw [List.length_append] at hg hb
  obtain ⟨g1, g2⟩ := grab_split (by omega) hg rfl
  have hpk : grab d (p + w1.length) 4 = leBytes 4 xv := by
    have hg2' : grab d (p + w1.length) (4 + w2.length) = leBytes 4 xv ++ w2 := by
      rw [← hlen2]
      exact g2
    obtain ⟨g3, _⟩ := grab_split (by omega) hg2' (leBytes_length 4 xv)
    exact g3
  rw [P.bind_ok (hx g1 hpk (by omega)), List.length_append, ← Nat.add_assoc]
  exact hf g2 (by omega)

theorem peeks_map {x : P α} {g : α → β} {d : List Nat} {p : Nat}
    {w : List Nat} {xv : Nat} {a : α}
    (hx : Peeks x d p w xv a) : Peeks (x >>= fun r => pure (g r)) d p w xv (g a) := by
  intro hg hpk hb
  rw [P.bind_ok (hx hg hpk hb)]
  exact P.pure_def _ d _

theorem consumes_map {x : P α} {g : α → β} {d : List Nat} {p : Nat}
    {w : List Nat} {a : α}
    (hx : Consumes x d p w a) : Consumes (x >>= fun r => pure (g r)) d p w (g a) := by
  intro hg hb
  rw [P.bind_ok (hx hg hb)]
  exact P.pure_def _ d _

/-! ## Leaf parser specifications -/

theorem readBlob_consumes {n v : Nat} (hv : v < 2 ^ (8 * n)) (d : List Nat) (p : Nat) :
    Consumes (readBlob n) d p (leBytes n v) v := by
  intro hg hb
  rw [leBytes_length] at hg hb
  rw [readBlob, if_pos hb, hg, leVal_leBytes_of_lt hv, leBytes_length]

theorem readU32_consumes {v : Nat} (hv : v < 2 ^ 32) (d : List Nat) (p : Nat) :
    Consumes readU32 d p (leBytes 4 v) v := readBlob_consumes (by norm_num; omega) d p

theorem readU16_consumes {v : Nat} (hv : v < 2 ^ 16) (d : List Nat) (p : Nat) :
    Consumes readU16 d p (leBytes 2 v) v := readBlob_consumes (by norm_num; omega) d p

theorem write_name_length (nm : List Nat) : (write_name nm).length = nm.length + 3 := by
  simp [write_name, leBytes_length]
  omega

theorem readName_consumes {nm : List Nat} (hwf : wfName nm = true) (d : List Nat) (p : Nat) :
    Consumes readName d p (write_name nm) nm := by
  intro hg hb
  rw [write_name_length] at hg hb
  obtain ⟨hlen, hascii⟩ : nm.length + 1 < 65536 ∧ ∀ b ∈ nm, b < 128 := by
    simpa [wfName] using hwf
  have hshape : grab d p (2 + (nm.length + 1)) = leBytes 2 (nm.length + 1) ++ (nm ++ [0]) := by
    have : (2 : Nat) + (nm.length + 1) = nm.length + 3 := by omega
    rw [this, hg, write_name, List.append_assoc]
  obtain ⟨g1, g2⟩ := grab_split (by omega) hshape (leBytes_length 2 _)
  have h16 : readU16 d p = .ok (nm.length + 1, p + 2) := by
    have hc := @readU16_consumes (nm.length + 1) (by omega) d p
    rw [Consumes, leBytes_length] at hc
    exact hc g1 (by omega)
  unfold readName
  rw [h16]
  show Except.ok (((grab d (p + 2) (nm.length + 1)).dropLast).filter (fun b => b < 128),
      (p + 2) + min (nm.length + 1) (d.length - (p + 2))) = _
  rw [g2]
  have hdl : (nm ++ [0]).dropLast = nm := by simp
  rw [hdl, List.filter_eq_self.mpr (by intro b hm; simpa using hascii b hm)]
  have hmin : min (nm.length + 1) (d.length - (p + 2)) = nm.length + 1 := by omega
  rw [hmin, write_name_length]
  have : p + 2 + (nm.length + 1) = p + (nm.length + 3) := by omega
  rw [this]

/-! ## Record specifications -/

theorem tagFree_elim {X : Nat} (h : tagFree X = true) :
    X ≠ MSH_MATERIAL ∧ X ≠ MSH_TEXTURE ∧ X ≠ MSH_END_OF_OPTIONALS := by
  simpa [tagFree, and_assoc] using h

theorem readMaterial_consumes {m : Material} (hwf : wfMaterial m = true)
    (d : List Nat) (p : Nat) : Consumes readMaterial d p (writeMaterialBody m) m := by
  obtain ⟨hn, h1, h2, h3, h4, h5⟩ :
      wfName m.name = true ∧ m.diffuse < 2 ^ 128 ∧ m.specular < 2 ^ 128 ∧
        m.specular_power < 2 ^ 32 ∧ m.emissive < 2 ^ 128 ∧ m.ambient < 2 ^ 128 := by
    simpa [wfMaterial, and_assoc] using hwf
  unfold readMaterial writeMaterialBody
  simp only [List.append_assoc]
  refine consumes_bind (readName_consumes hn d p) ?_
  refine consumes_bind (readBlob_consumes h1 d _) ?_
  refine consumes_bind (readBlob_consumes h2 d _) ?_
  refine consumes_bind (readBlob_consumes h3 d _) ?_
  refine consumes_bind (readBlob_consumes h4 d _) ?_
  exact consumes_map (readBlob_consumes h5 d _)

theorem readTexture_consumes {t : Texture} (hwf : wfTexture t = true)
    (d : List Nat) (p : Nat) : Consumes readTexture d p (writeTextureBody t) t := by
  obtain ⟨hn, h1, h2⟩ :
      wfName t.name = true ∧ t.texture_type < 2 ^ 32 ∧ t.mipmaps < 2 ^ 32 := by
    simpa [wfTexture, and_assoc] using hwf
  unfold readTexture writeTextureBody
  simp only [List.append_assoc]
  refine consumes_bind (readName_consumes hn d p) ?_
  refine consumes_bind (readBlob_consumes h1 d _) ?_
  exact consumes_map (readBlob_consumes h2 d _)

theorem probe_hit {tag : Nat} {body : P α} {d : List Nat} {p q : Nat} {a : α}
    (htag : tag < 2 ^ 32) (hgr : grab d p 4 = leBytes 4 tag) (hbnd : p + 4 ≤ d.length)
    (hbody : body d (p + 4) = .ok (a, q)) : probe tag body d p = .ok (some a, q) := by
  have h32 : readU32 d p = .ok (tag, p + 4) := by
    have hc := readU32_consumes htag d p
    rw [Consumes, leBytes_length] at hc
    exact hc hgr hbnd
  unfold probe
  rw [h32]
  show (if tag = tag then _ else _) = _
  rw [if_pos rfl, hbody]

theorem probe_miss {tag X : Nat} (body : P α) {d : List Nat} {p : Nat}
    (hX : X < 2 ^ 32) (hne : X ≠ tag)
    (hgr : grab d p 4 = leBytes 4 X) (hbnd : p + 4 ≤ d.length) :
    probe tag body d p = .ok (none, p) := by
  have h32 : readU32 d p = .ok (X, p + 4) := by
    have hc := readU32_consumes hX d p
    rw [Consumes, leBytes_length] at hc
    exact hc hgr hbnd
  unfold probe
  rw [h32]
  show (if X = tag then _ else _) = _
  rw [if_neg hne]

theorem probeFlag_miss {tag X : Nat} {d : List Nat} {p : Nat}
    (hX : X < 2 ^ 32) (hne : X ≠ tag)
    (hgr : grab d p 4 = leBytes 4 X) (hbnd : p + 4 ≤ d.length) :
    probeFlag tag d p = .ok (false, p) := by
  have h32 : readU32 d p = .ok (X, p + 4) := by
    have hc := readU32_consumes hX d p
    rw [Consumes, leBytes_length] at hc
    exact hc hgr hbnd
  unfold probeFlag
  rw [h32]
  show (if X = tag then _ else _) = _
  rw [if_neg hne]

theorem MSH_MATERIAL_lt : MSH_MATERIAL < 2 ^ 32 := by norm_num [MSH_MATERIAL]

theorem MSH_TEXTURE_lt : MSH_TEXTURE < 2 ^ 32 := by norm_num [MSH_TEXTURE]

theorem probe_hit_consumes {tag : Nat} {body : P α} {d : List Nat} {p : Nat}
    {w : List Nat} {a : α} (htag : tag < 2 ^ 32)
    (hbody : Consumes body d (p + 4) w a) :
    Consumes (probe tag body) d p (leBytes 4 tag ++ w) (some a) := by
  intro hg hb
  have hlen : (leBytes 4 tag ++ w).length = 4 + w.length := by
    rw [List.length_append, leBytes_length]
  rw [hlen] at hg hb
  obtain ⟨gtag, gbody⟩ := grab_split (by omega) hg (leBytes_length 4 _)
  have hq : body d (p + 4) = .ok (a, p + 4 + w.length) := hbody gbody (by omega)
  have := probe_hit htag gtag (by omega) hq
  rw [this, hlen]
  have : p + 4 + w.length = p + (4 + w.length) := by omega
  rw [this]

theorem probe_miss_peeks {tag X : Nat} (body : P α) {d : List Nat} {p : Nat}
    (hX : X < 2 ^ 32) (hne : X ≠ tag) :
    Peeks (probe tag body) d p [] X none := by
  intro hg hpk hb
  simp only [List.length_nil, Nat.add_zero] at hpk hb ⊢
  exact probe_miss body hX hne hpk (by omega)

theorem probeFlag_miss_peeks {tag X : Nat} {d : List Nat} {p : Nat}
    (hX : X < 2 ^ 32) (hne : X ≠ tag) :
    Peeks (probeFlag tag) d p [] X false := by
  intro hg hpk hb
  simp only [List.length_nil, Nat.add_zero] at hpk hb ⊢
  exact probeFlag_miss hX hne hpk (by omega)

theorem peeks_congr {f : P α} {d : List Nat} {p X : Nat} {v : α} {w w2 : List Nat}
    (h : w = w2) (hp : Peeks f d p w X v) : Peeks f d p w2 X v := h ▸ hp

theorem peeks_nil_bind {x : P α} {f : α → P β} {d : List Nat} {p X : Nat} {a : α} {b : β}
    (hx : Peeks x d p [] X a) (hf : Peeks (f a) d p [] X b) :
    Peeks (x >>= f) d p [] X b := by
  intro hg hpk hb
  have h1 : x d p = .ok (a, p) := by simpa using hx hg hpk hb
  rw [P.bind_ok h1]
  exact hf hg hpk hb

theorem peeks_nil_bind_head {x : P α} {f : α → P β} {d : List Nat} {p X Y : Nat}
    {w' : List Nat} {a : α} {b : β}
    (hx : Peeks x d p [] Y a) (hf : Peeks (f a) d p (leBytes 4 Y ++ w') X b) :
    Peeks (x >>= f) d p (leBytes 4 Y ++ w') X b := by
  intro hg hpk hb
  have hlen : (leBytes 4 Y ++ w').length = 4 + w'.length := by
    rw [List.length_append, leBytes_length]
  have hg4 : grab d p 4 = leBytes 4 Y := by
    rw [hlen] at hg hb
    obtain ⟨g1, _⟩ := grab_split (by omega) hg (leBytes_length 4 _)
    exact g1
  have h1 : x d p = .ok (a, p) := by
    have := hx (by rfl) (by simpa using hg4) (by rw [hlen] at hb; simp; omega)
    simpa using this
  rw [P.bind_ok h1]
  exact hf hg hpk hb

theorem opt_case_ss {m : Material} {t : Texture}
    {X : Nat} (hmw : wfMaterial m = true) (htw : wfTexture t = true)
    (hX : X < 2 ^ 32) (hne3 : X ≠ MSH_END_OF_OPTIONALS) (d : List Nat) (p : Nat) :
    Peeks read_optional_blocks d p
      ((leBytes 4 MSH_MATERIAL ++ writeMaterialBody m) ++
        ((leBytes 4 MSH_TEXTURE ++ writeTextureBody t) ++ [])) X (some m, some t, false) := by
  unfold read_optional_blocks
  exact consumes_bind_peeks (probe_hit_consumes MSH_MATERIAL_lt
    (readMaterial_consumes hmw d _)) (consumes_bind_peeks (probe_hit_consumes
    MSH_TEXTURE_lt (readTexture_consumes htw d _)) (peeks_map
    (probeFlag_miss_peeks hX hne3)))

theorem opt_case_sn {m : Material}
    {X : Nat} (hmw : wfMaterial m = true)
    (hX : X < 2 ^ 32) (hne2 : X ≠ MSH_TEXTURE) (hne3 : X ≠ MSH_END_OF_OPTIONALS)
    (d : List Nat) (p : Nat) :
    Peeks read_optional_blocks d p
      ((leBytes 4 MSH_MATERIAL ++ writeMaterialBody m) ++ ([] ++ [])) X
      (some m, none, false) := by
  unfold read_optional_blocks
  exact consumes_bind_peeks (probe_hit_consumes MSH_MATERIAL_lt
    (readMaterial_consumes hmw d _)) (peeks_nil_bind (probe_miss_peeks _ hX hne2)
    (peeks_map (probeFlag_miss_peeks hX hne3)))

theorem opt_case_ns {t : Texture}
    {X : Nat} (htw : wfTexture t = true)
    (hX : X < 2 ^ 32) (hne3 : X ≠ MSH_END_OF_OPTIONALS) (d : List Nat) (p : Nat) :
    Peeks read_optional_blocks d p
      (leBytes 4 MSH_TEXTURE ++ (writeTextureBody t ++ [])) X (none, some t, false) := by
  have hTne : MSH_TEXTURE ≠ MSH_MATERIAL := by norm_num [MSH_TEXTURE, MSH_MATERIAL]
  unfold read_optional_blocks
  exact @peeks_nil_bind_head _ _ _ _ _ _ _ _ (writeTextureBody t ++ []) _ _
    (probe_miss_peeks _ MSH_TEXTURE_lt hTne)
    (peeks_congr (by simp) (consumes_bind_peeks (probe_hit_consumes MSH_TEXTURE_lt
      (readTexture_consumes htw d _)) (peeks_map (probeFlag_miss_peeks hX hne3))))

theorem opt_case_nn {X : Nat} (hX : X < 2 ^ 32)
    (hne1 : X ≠ MSH_MATERIAL) (hne2 : X ≠ MSH_TEXTURE) (hne3 : X ≠ MSH_END_OF_OPTIONALS)
    (d : List Nat) (p : Nat) :
    Peeks read_optional_blocks d p [] X
      ((none : Option Material), (none : Option Texture), false) := by
  unfold read_optional_blocks
  exact peeks_nil_bind (probe_miss_peeks _ hX hne1)
    (peeks_nil_bind (probe_miss_peeks _ hX hne2)
      (peeks_map (probeFlag_miss_peeks hX hne3)))

theorem weq_ss (m : Material) (t : Texture) (em : Bool) :
    (leBytes 4 MSH_MATERIAL ++ writeMaterialBody m) ++
      ((leBytes 4 MSH_TEXTURE ++ writeTextureBody t) ++ []) =
      write_optionals (some m) (some t) em := by
  cases em with
  | false =>
    show _ = ((leBytes 4 MSH_MATERIAL ++ writeMaterialBody m) ++
      (leBytes 4 MSH_TEXTURE ++ writeTextureBody t)) ++ []
    simp only [List.append_assoc, List.append_nil]
  | true =>
    show _ = ((leBytes 4 MSH_MATERIAL ++ writeMaterialBody m) ++
      (leBytes 4 MSH_TEXTURE ++ writeTextureBody t)) ++ []
    simp only [List.append_assoc, List.append_nil]

theorem weq_sn (m : Material) (em : Bool) :
    (leBytes 4 MSH_MATERIAL ++ writeMaterialBody m) ++ ([] ++ []) =
      write_optionals (some m) none em := by
  cases em with
  | false =>
    show _ = ((leBytes 4 MSH_MATERIAL ++ writeMaterialBody m) ++ []) ++ []
    simp only [List.append_assoc, List.append_nil]
  | true =>
    show _ = ((leBytes 4 MSH_MATERIAL ++ writeMaterialBody m) ++ []) ++ []
    simp only [List.append_assoc, List.append_nil]

theorem weq_ns (t : Texture) (em : Bool) :
    leBytes 4 MSH_TEXTURE ++ (writeTextureBody t ++ []) =
      write_optionals none (some t) em := by
  cases em with
  | false =>
    show _ = [] ++ ((leBytes 4 MSH_TEXTURE ++ writeTextureBody t) ++ [])
    rw [List.nil_append, List.append_assoc]
  | true =>
    show _ = [] ++ ((leBytes 4 MSH_TEXTURE ++ writeTextureBody t) ++ [])
    rw [List.nil_append, List.append_assoc]

theorem weq_nn (em : Bool) :
    ([] : List Nat) = write_optionals none none em := by
  cases em with
  | false => rfl
  | true => rfl

theorem read_optional_blocks_peeks_some {m : Material} {tx : Option Texture} (em : Bool)
    {X : Nat} (hmw : wfMaterial m = true) (ht : wfOpt wfTexture tx = true)
    (hX : X < 2 ^ 32) (htf : tagFree X = true) (d : List Nat) (p : Nat) :
    Peeks read_optional_blocks d p (write_optionals (some m) tx em) X
      (some m, tx, false) := by
  obtain ⟨hne1, hne2, hne3⟩ := tagFree_elim htf
  cases tx with
  | some t =>
    have htw : wfTexture t = true := by simpa [wfOpt] using ht
    exact peeks_congr (weq_ss m t em) (opt_case_ss hmw htw hX hne3 d p)
  | none =>
    exact peeks_congr (weq_sn m em) (opt_case_sn hmw hX hne2 hne3 d p)

theorem read_optional_blocks_peeks_none {tx : Option Texture} (em : Bool)
    {X : Nat} (ht : wfOpt wfTexture tx = true)
    (hX : X < 2 ^ 32) (htf : tagFree X = true) (d : List Nat) (p : Nat) :
    Peeks read_optional_blocks d p (write_optionals none tx em) X
      ((none : Option Material), tx, false) := by
  obtain ⟨hne1, hne2, hne3⟩ := tagFree_elim htf
  cases tx with
  | some t =>
    have htw : wfTexture t = true := by simpa [wfOpt] using ht
    exact peeks_congr (weq_ns t em) (opt_case_ns htw hX hne3 d p)
  | none =>
    exact peeks_congr (weq_nn em) (opt_case_nn hX hne1 hne2 hne3 d p)

theorem read_optional_blocks_peeks {mt : Option Material} {tx : Option Texture} (em : Bool)
    {X : Nat} (hm : wfOpt wfMaterial mt = true) (ht : wfOpt wfTexture tx = true)
    (hX : X < 2 ^ 32) (htf : tagFree X = true) (d : List Nat) (p : Nat) :
    Peeks read_optional_blocks d p (write_optionals mt tx em) X (mt, tx, false) := by
  cases mt with
  | some m =>
    have hmw : wfMaterial m = true := by simpa [wfOpt] using hm
    exact read_optional_blocks_peeks_some em hmw ht hX htf d p
  | none => exact read_optional_blocks_peeks_none em ht hX htf d p

theorem readVertGroup_peeks {v : VertGroup} (hwf : wfVG v = true)
    {X : Nat} (hX : X < 2 ^ 32) (htf : tagFree X = true) (d : List Nat) (p : Nat) :
    Peeks readVertGroup d p (writeVertGroup v) X (clearVG v) := by
  obtain ⟨h1, h2, h3, h4, hm, ht⟩ :
      v.state_index < 2 ^ 32 ∧ v.vert_count < 2 ^ 32 ∧ v.index_count < 2 ^ 32 ∧
        v.plane_index < 2 ^ 32 ∧ wfOpt wfMaterial v.material = true ∧
          wfOpt wfTexture v.texture = true := by
    simpa [wfVG, and_assoc] using hwf
  unfold readVertGroup writeVertGroup
  simp only [List.append_assoc]
  refine consumes_bind_peeks (readU32_consumes h1 d p) ?_
  refine consumes_bind_peeks (readU32_consumes h2 d _) ?_
  refine consumes_bind_peeks (readU32_consumes h3 d _) ?_
  refine consumes_bind_peeks (readU32_consumes h4 d _) ?_
  exact peeks_map (read_optional_blocks_peeks v.end_marker hm ht hX htf d _)

theorem readBuckyDesc_peeks {b : BuckyDesc} (hwf : wfBucky b = true)
    {X : Nat} (hX : X < 2 ^ 32) (htf : tagFree X = true) (d : List Nat) (p : Nat) :
    Peeks readBuckyDesc d p (writeBuckyDesc b) X (clearBucky b) := by
  obtain ⟨h1, h2, h3, hm, ht⟩ :
      b.flags < 2 ^ 32 ∧ b.vert_count < 2 ^ 32 ∧ b.index_count < 2 ^ 32 ∧
        wfOpt wfMaterial b.material = true ∧ wfOpt wfTexture b.texture = true := by
    simpa [wfBucky, and_assoc] using hwf
  unfold readBuckyDesc writeBuckyDesc
  simp only [List.append_assoc]
  refine consumes_bind_peeks (readU32_consumes h1 d p) ?_
  refine consumes_bind_peeks (readU32_consumes h3 d _) ?_
  refine consumes_bind_peeks (readU32_consumes h2 d _) ?_
  exact peeks_map (read_optional_blocks_peeks b.end_marker hm ht hX htf d _)

/-! ## List specifications -/

theorem peeks_bind_pure {x : P α} {f : α → P β} {d : List Nat} {p X : Nat}
    {w : List Nat} {a : α} {b : β}
    (hx : Peeks x d p w X a) (hr : ∀ q, f a d q = .ok (b, q)) :
    Peeks (x >>= f) d p w X b := by
  intro hg hpk hb
  rw [P.bind_ok (hx hg hpk hb), hr]

theorem peeks_bind_peeks {x : P α} {f : α → P β} {d : List Nat} {p X Y : Nat}
    {w1 w2' : List Nat} {a : α} {b : β}
    (hx : Peeks x d p w1 Y a)
    (hf : Peeks (f a) d (p + w1.length) (leBytes 4 Y ++ w2') X b) :
    Peeks (x >>= f) d p (w1 ++ (leBytes 4 Y ++ w2')) X b := by
  intro hg hpk hb
  have hlen2 : (leBytes 4 Y ++ w2').length = 4 + w2'.length := by
    rw [List.length_append, leBytes_length]
  rw [List.length_append] at hg hpk hb
  obtain ⟨g1, g2⟩ := grab_split (by omega) hg rfl
  have hpkx : grab d (p + w1.length) 4 = leBytes 4 Y := by
    have hg2' : grab d (p + w1.length) (4 + w2'.length) = leBytes 4 Y ++ w2' := by
      rw [← hlen2]
      exact g2
    obtain ⟨g3, _⟩ := grab_split (by omega) hg2' (leBytes_length 4 Y)
    exact g3
  rw [P.bind_ok (hx g1 hpkx (by omega))]
  have e1 : p + (w1.length + (leBytes 4 Y ++ w2').length) =
      p + w1.length + (leBytes 4 Y ++ w2').length := by omega
  rw [e1] at hpk
  have hres := hf g2 hpk (by omega)
  rw [hres]
  have e2 : p + w1.length + (leBytes 4 Y ++ w2').length =
      p + (w1 ++ (leBytes 4 Y ++ w2')).length := by
    simp only [List.length_append, leBytes_length]
    omega
  rw [e2]

theorem readList_consumes {elem : P α} {wr : α → List Nat} {d : List Nat} {lst : List α}
    (h : ∀ x ∈ lst, ∀ q : Nat, Consumes elem d q (wr x) x) :
    ∀ p : Nat, Consumes (readList elem lst.length) d p ((lst.map wr).flatten) lst := by
  induction lst with
  | nil => exact fun p => consumes_pure [] d p
  | cons x t ih =>
    intro p
    have hx := h x (List.mem_cons_self x t) p
    have hrest := ih (fun y hy q => h y (List.mem_cons_of_mem x hy) q)
    exact consumes_bind hx (consumes_map (hrest _))

theorem readCounted_consumes {elem : P α} {wr : α → List Nat} {d : List Nat} {lst : List α}
    (hlen : lst.length < 2 ^ 32)
    (h : ∀ x ∈ lst, ∀ q : Nat, Consumes elem d q (wr x) x) (p : Nat) :
    Consumes (readCounted elem) d p (writeCounted wr lst) lst := by
  unfold readCounted writeCounted
  exact consumes_bind (readU32_consumes hlen d p) (readList_consumes h _)

theorem chainFree_elim {hv : α → Nat} {x : α} {t : List α} {nxt : Nat}
    (h : chainFree hv (x :: t) nxt = true) :
    tagFree (followVal hv t nxt) = true ∧ chainFree hv t nxt = true := by
  simpa [chainFree] using h

theorem readList_chain_peeks {elem : P α} {wr : α → List Nat} {cl : α → α} {hv : α → Nat}
    {d : List Nat} {nxt : Nat}
    (hshape : ∀ x : α, ∃ w', wr x = leBytes 4 (hv x) ++ w')
    {lst : List α}
    (hval : ∀ x ∈ lst, hv x < 2 ^ 32)
    (helem : ∀ x ∈ lst, ∀ (q Y : Nat), Y < 2 ^ 32 → tagFree Y = true →
      Peeks elem d q (wr x) Y (cl x))
    (hchain : chainFree hv lst nxt = true)
    (hnxt : nxt < 2 ^ 32) :
    ∀ p : Nat, Peeks (readList elem lst.length) d p ((lst.map wr).flatten) nxt
      (lst.map cl) := by
  induction lst with
  | nil =>
    intro p _ _ _
    exact P.pure_def [] d p
  | cons x t ih =>
    intro p
    obtain ⟨htf, hchain2⟩ := chainFree_elim hchain
    cases t with
    | nil =>
      have hx := helem x (List.mem_cons_self x []) p nxt hnxt htf
      have htail : ∀ q : Nat,
          ((fun x' => readList elem 0 >>= fun xs => pure (x' :: xs)) (cl x) : P (List α)) d q =
            .ok ([cl x], q) := by
        intro q
        show (readList elem 0 >>= fun xs => pure (cl x :: xs)) d q = _
        rw [P.bind_ok (show readList elem 0 d q = Except.ok (([] : List α), q) from
          P.pure_def [] d q)]
        exact P.pure_def _ d q
      refine peeks_congr ?_ (peeks_bind_pure hx htail)
      simp
    | cons y t2 =>
      have hvy : hv y < 2 ^ 32 := hval y (List.mem_cons_of_mem x (List.mem_cons_self y t2))
      have hx := helem x (List.mem_cons_self x (y :: t2)) p (hv y) hvy htf
      have hrest := ih (fun z hz => hval z (List.mem_cons_of_mem x hz))
        (fun z hz q Y hY hTf => helem z (List.mem_cons_of_mem x hz) q Y hY hTf) hchain2
      obtain ⟨w2, hw2⟩ := hshape y
      have htail : Peeks ((fun x' => readList elem (y :: t2).length >>=
          fun xs => pure (x' :: xs)) (cl x) : P (List α)) d (p + (wr x).length)
          (leBytes 4 (hv y) ++ (w2 ++ ((t2.map wr).flatten))) nxt
          ((x :: y :: t2).map cl) := by
        show Peeks (readList elem (y :: t2).length >>= fun xs => pure (cl x :: xs)) d _ _ _ _
        refine peeks_congr ?_ (peeks_map (hrest (p + (wr x).length)))
        show ((y :: t2).map wr).flatten = _
        rw [List.map_cons, List.flatten_cons, hw2, List.append_assoc]
      refine peeks_congr ?_ (peeks_bind_peeks hx htail)
      rw [List.map_cons, List.flatten_cons, List.map_cons, List.flatten_cons, hw2]
      simp [List.append_assoc]

theorem beq_nat_elim {a b : Nat} (h : (a == b) = true) : a = b := by simpa using h

theorem readVertIndex_consumes {v : VertIndex} (hwf : wfVertIndex v = true)
    (d : List Nat) (q : Nat) :
    Consumes readVertIndex d q (leBytes 4 v.weight ++ leBytes 2 v.index) v := by
  obtain ⟨h1, h2⟩ : v.weight < 2 ^ 32 ∧ v.index < 2 ^ 16 := by
    simpa [wfVertIndex] using hwf
  unfold readVertIndex
  exact consumes_bind (readBlob_consumes h1 d q) (consumes_map (readBlob_consumes h2 d _))

theorem readVtsContainer_consumes {c : VertIndexContainer} (hwf : wfVts c = true)
    (d : List Nat) (p : Nat) :
    Consumes readVtsContainer d p (writeVtsContainer c) c := by
  obtain ⟨cnt, arr⟩ := c
  obtain ⟨hcnt, hlt, hall⟩ :
      (cnt == arr.length) = true ∧ cnt < 2 ^ 32 ∧ arr.all wfVertIndex = true := by
    simpa [wfVts, and_assoc] using hwf
  have hc : cnt = arr.length := beq_nat_elim hcnt
  subst hc
  unfold readVtsContainer writeVtsContainer
  refine consumes_bind (readU32_consumes hlt d p) (consumes_map ?_)
  exact readList_consumes (fun x hx q =>
    readVertIndex_consumes (List.all_eq_true.mp hall x hx) d q) _

theorem readVertToState_consumes {lst : List VertIndexContainer}
    (hlen : lst.length < 2 ^ 32) (hall : lst.all wfVts = true) (d : List Nat) (p : Nat) :
    Consumes readVertToState d p (writeCounted writeVtsContainer lst) lst := by
  unfold readVertToState
  exact readCounted_consumes hlen
    (fun c hc q => readVtsContainer_consumes (List.all_eq_true.mp hall c hc) d q) p

theorem wfBlobList_elim {n : Nat} {l : List Nat} (h : wfBlobList n l = true) :
    l.length < 2 ^ 32 ∧ ∀ v ∈ l, v < 2 ^ (8 * n) := by
  obtain ⟨h1, h2⟩ : l.length < 2 ^ 32 ∧ l.all (fun v => v < 2 ^ (8 * n)) = true := by
    simpa [wfBlobList] using h
  exact ⟨h1, fun v hv => by simpa using List.all_eq_true.mp h2 v hv⟩

theorem readBlobList_consumes {n : Nat} {l : List Nat} (hwf : wfBlobList n l = true)
    (d : List Nat) (p : Nat) :
    Consumes (readCounted (readBlob n)) d p (writeCounted (leBytes n) l) l := by
  obtain ⟨h1, h2⟩ := wfBlobList_elim hwf
  exact readCounted_consumes h1 (fun v hv q => readBlob_consumes (h2 v hv) d q) p

theorem readAnim_consumes {a : Anim} (hwf : wfAnim a = true) (d : List Nat) (p : Nat) :
    Consumes readAnim d p (writeAnim a) a := by
  obtain ⟨h1, h2, h3⟩ :
      a.index < 2 ^ 32 ∧ a.max_frame < 2 ^ 32 ∧ wfBlobList 36 a.states = true := by
    simpa [wfAnim, and_assoc] using hwf
  unfold readAnim writeAnim
  simp only [List.append_assoc]
  refine consumes_bind (readU32_consumes h1 d p) ?_
  refine consumes_bind (readBlob_consumes h2 d _) ?_
  exact consumes_map (readBlobList_consumes h3 d _)

theorem readAnimList_consumes {al : AnimList} (hwf : wfAnimList al = true)
    (d : List Nat) (p : Nat) :
    Consumes readAnimList d p (writeAnimList al) al := by
  obtain ⟨h1, h2, h3, h4, h5, h6, h7⟩ :
      wfName al.name = true ∧ al.anim_type < 2 ^ 32 ∧ al.max_frame < 2 ^ 32 ∧
        al.end_frame < 2 ^ 32 ∧ wfBlobList 36 al.states = true ∧
          al.animations.length < 2 ^ 32 ∧ al.animations.all wfAnim = true := by
    simpa [wfAnimList, and_assoc] using hwf
  unfold readAnimList writeAnimList
  simp only [List.append_assoc]
  refine consumes_bind (readName_consumes h1 d p) ?_
  refine consumes_bind (readBlob_consumes h2 d _) ?_
  refine consumes_bind (readBlob_consumes h3 d _) ?_
  refine consumes_bind (readBlob_consumes h4 d _) ?_
  refine consumes_bind (readBlobList_consumes h5 d _) ?_
  exact consumes_map (readCounted_consumes h6
    (fun x hx q => readAnim_consumes (List.all_eq_true.mp h7 x hx) d q) _)

/-! ## Vert-group list and mesh-body specifications -/

theorem consumes_congr {f : P α} {d : List Nat} {p : Nat} {v : α} {w w2 : List Nat}
    (h : w = w2) (hc : Consumes f d p w v) : Consumes f d p w2 v := h ▸ hc

theorem wfVG_state_lt {v : VertGroup} (h : wfVG v = true) : v.state_index < 2 ^ 32 := by
  obtain ⟨h1, h2⟩ : v.state_index < 2 ^ 32 ∧ _ := by
    simpa [wfVG, and_assoc] using h
  exact h1

theorem wfBucky_flags_lt {b : BuckyDesc} (h : wfBucky b = true) : b.flags < 2 ^ 32 := by
  obtain ⟨h1, h2⟩ : b.flags < 2 ^ 32 ∧ _ := by
    simpa [wfBucky, and_assoc] using h
  exact h1

theorem wfVGList_elim {vgs : List VertGroup} {nxt : Nat} (h : wfVGList vgs nxt = true) :
    (∀ v ∈ vgs, wfVG v = true) ∧
      chainFree (fun v : VertGroup => v.state_index) vgs nxt = true := by
  obtain ⟨h1, h2⟩ : vgs.all wfVG = true ∧
      chainFree (fun v : VertGroup => v.state_index) vgs nxt = true := by
    simpa [wfVGList] using h
  exact ⟨fun v hv => List.all_eq_true.mp h1 v hv, h2⟩

theorem wfBuckyList_elim {bs : List BuckyDesc} {nxt : Nat} (h : wfBuckyList bs nxt = true) :
    (∀ b ∈ bs, wfBucky b = true) ∧
      chainFree (fun b : BuckyDesc => b.flags) bs nxt = true := by
  obtain ⟨h1, h2⟩ : bs.all wfBucky = true ∧
      chainFree (fun b : BuckyDesc => b.flags) bs nxt = true := by
    simpa [wfBuckyList] using h
  exact ⟨fun b hb => List.all_eq_true.mp h1 b hb, h2⟩

theorem writeVertGroup_shape (v : VertGroup) :
    ∃ w', writeVertGroup v = leBytes 4 v.state_index ++ w' := by
  refine ⟨leBytes 4 v.vert_count ++ (leBytes 4 v.index_count ++ (leBytes 4 v.plane_index ++
    write_optionals v.material v.texture v.end_marker)), ?_⟩
  unfold writeVertGroup
  simp [List.append_assoc]

theorem writeBuckyDesc_shape (b : BuckyDesc) :
    ∃ w', writeBuckyDesc b = leBytes 4 b.flags ++ w' := by
  refine ⟨leBytes 4 b.index_count ++ (leBytes 4 b.vert_count ++
    write_optionals b.material b.texture b.end_marker), ?_⟩
  unfold writeBuckyDesc
  simp [List.append_assoc]

theorem readVGList_peeks {vgs : List VertGroup} {nxt : Nat}
    (hlen : vgs.length < 2 ^ 32) (hwf : wfVGList vgs nxt = true) (hnxt : nxt < 2 ^ 32)
    (d : List Nat) (p : Nat) :
    Peeks (readCounted readVertGroup) d p (writeCounted writeVertGroup vgs) nxt
      (vgs.map clearVG) := by
  obtain ⟨hall, hchain⟩ := wfVGList_elim hwf
  unfold readCounted writeCounted
  refine consumes_bind_peeks (readU32_consumes hlen d p) ?_
  exact readList_chain_peeks writeVertGroup_shape
    (fun v hv => wfVG_state_lt (hall v hv))
    (fun v hv q Y hY htf => readVertGroup_peeks (hall v hv) hY htf d q)
    hchain hnxt _

theorem readBuckyList_peeks {bs : List BuckyDesc} {nxt : Nat}
    (hlen : bs.length < 2 ^ 32) (hwf : wfBuckyList bs nxt = true) (hnxt : nxt < 2 ^ 32)
    (d : List Nat) (p : Nat) :
    Peeks (readCounted readBuckyDesc) d p (writeCounted writeBuckyDesc bs) nxt
      (bs.map clearBucky) := by
  obtain ⟨hall, hchain⟩ := wfBuckyList_elim hwf
  unfold readCounted writeCounted
  refine consumes_bind_peeks (readU32_consumes hlen d p) ?_
  exact readList_chain_peeks writeBuckyDesc_shape
    (fun b hb => wfBucky_flags_lt (hall b hb))
    (fun b hb q Y hY htf => readBuckyDesc_peeks (hall b hb) hY htf d q)
    hchain hnxt _

theorem wfMeshBody_elim {b : MeshBody} (h : wfMeshBody b = true) :
    wfName b.name = true ∧ b.name.isEmpty = false ∧ b.state_index < 2 ^ 32 ∧
      b.is_single_geom < 2 ^ 32 ∧ b.renderflags < 2 ^ 32 ∧ b.matrix < 2 ^ 512 ∧
      wfBlobList 4 b.vert_colors = true ∧ wfBlobList 16 b.planes = true ∧
      wfBlobList 32 b.vertex = true ∧ b.vert_groups.length < 2 ^ 32 ∧
      wfVGList b.vert_groups b.indices.length = true ∧ wfBlobList 2 b.indices = true := by
  simpa [wfMeshBody, and_assoc] using h

theorem readMeshBodyRest_consumes {b : MeshBody} (hwf : wfMeshBody b = true)
    (d : List Nat) (q : Nat) :
    Consumes (readMeshBodyRest b.name) d q (writeMeshBodyRest b) (clearBody b) := by
  obtain ⟨hn, hne, h1, h2, h3, h4, h5, h6, h7, h8, h9, h10⟩ := wfMeshBody_elim hwf
  have hixlt : b.indices.length < 2 ^ 32 := (wfBlobList_elim h10).1
  unfold readMeshBodyRest writeMeshBodyRest
  simp only [List.append_assoc]
  refine consumes_bind (readU32_consumes h1 d q) ?_
  refine consumes_bind (readU32_consumes h2 d _) ?_
  refine consumes_bind (readU32_consumes h3 d _) ?_
  refine consumes_bind (readBlob_consumes h4 d _) ?_
  refine consumes_bind (readBlobList_consumes h5 d _) ?_
  refine consumes_bind (readBlobList_consumes h6 d _) ?_
  refine consumes_bind (readBlobList_consumes h7 d _) ?_
  refine consumes_congr ?_ (peeks_bind_consumes (readVGList_peeks h8 h9 hixlt d _)
    (consumes_congr (show writeCounted (leBytes 2) b.indices = _ from rfl)
      (consumes_map (readBlobList_consumes h10 d _))))
  rfl

theorem isEmpty_false_length {l : List Nat} (h : l.isEmpty = false) : ¬l.length = 0 := by
  cases l with
  | nil => simp [List.isEmpty] at h
  | cons x t => simp

theorem readMeshBody_consumes {b : MeshBody} (hwf : wfMeshBody b = true)
    (d : List Nat) (p : Nat) :
    Consumes readMeshBody d p (writeMeshBody b) (clearBody b) := by
  obtain ⟨hn, hne, hrest⟩ :
      wfName b.name = true ∧ b.name.isEmpty = false ∧ _ := by
    simpa [wfMeshBody, and_assoc] using hwf
  intro hg hb
  have hlen : (writeMeshBody b).length =
      (write_name b.name).length + (writeMeshBodyRest b).length := by
    rw [writeMeshBody, List.length_append]
  rw [hlen] at hg hb
  have hg' : grab d p ((write_name b.name).length + (writeMeshBodyRest b).length) =
      write_name b.name ++ writeMeshBodyRest b := by
    rw [hg, writeMeshBody]
  obtain ⟨g1, g2⟩ := grab_split (by omega) hg' rfl
  have hname : readName d p = .ok (b.name, p + (write_name b.name).length) :=
    readName_consumes hn d p g1 (by omega)
  unfold readMeshBody
  rw [hname]
  show (if b.name.length = 0 then Except.error MshErr.zeroLengthName
    else readMeshBodyRest b.name d (p + (write_name b.name).length)) = _
  rw [if_neg (isEmpty_false_length hne)]
  have := readMeshBodyRest_consumes hwf d (p + (write_name b.name).length) g2 (by omega)
  rw [this, hlen, Nat.add_assoc]

/-! ## Mesh-tree infrastructure -/

theorem Mesh.size_pos (m : Mesh) : 0 < m.size := by
  cases m with
  | mk b c s =>
    show 0 < 1 + OMesh.size c + OMesh.size s
    omega

theorem size_child_lt (b : MeshBody) (cm : Mesh) (s : OMesh) :
    Mesh.size cm < Mesh.size (.mk b (.some cm) s) := by
  show Mesh.size cm < 1 + Mesh.size cm + OMesh.size s
  omega

theorem size_sibling_lt (b : MeshBody) (c : OMesh) (sm : Mesh) :
    Mesh.size sm < Mesh.size (.mk b c (.some sm)) := by
  show Mesh.size sm < 1 + OMesh.size c + Mesh.size sm
  omega

theorem get?_some_lt {α : Type} {a : List α} {i : Nat} {n : α} (h : a.get? i = some n) :
    i < a.length := by
  by_contra hlt
  rw [List.get?_eq_none.mpr (by omega)] at h
  cases h

theorem setChild_get_same {a : List MeshNode} {i j : Nat} {n : MeshNode}
    (h : a.get? i = some n) :
    (setChild a i j).get? i = some ⟨n.body, some j, n.sibling⟩ := by
  unfold setChild
  rw [h]
  exact List.get?_set_eq_of_lt _ (get?_some_lt h)

theorem setChild_get_ne {a : List MeshNode} {i j q : Nat} (h : q ≠ i) :
    (setChild a i j).get? q = a.get? q := by
  unfold setChild
  cases hK : a.get? i with
  | none => rfl
  | some n => exact List.get?_set_ne _ _ (fun he => h he.symm)

theorem setChild_length (a : List MeshNode) (i j : Nat) :
    (setChild a i j).length = a.length := by
  unfold setChild
  cases a.get? i <;> simp

theorem setSibling_get_same {a : List MeshNode} {i k : Nat} {n : MeshNode}
    (h : a.get? i = some n) :
    (setSibling a i k).get? i = some ⟨n.body, n.child, some k⟩ := by
  unfold setSibling
  rw [h]
  exact List.get?_set_eq_of_lt _ (get?_some_lt h)

theorem setSibling_get_ne {a : List MeshNode} {i k q : Nat} (h : q ≠ i) :
    (setSibling a i k).get? q = a.get? q := by
  unfold setSibling
  cases hK : a.get? i with
  | none => rfl
  | some n => exact List.get?_set_ne _ _ (fun he => h he.symm)

theorem setSibling_length (a : List MeshNode) (i k : Nat) :
    (setSibling a i k).length = a.length := by
  unfold setSibling
  cases a.get? i <;> simp

theorem get?_append_one_lt {α : Type} {a : List α} {x : α} {q : Nat} (h : q < a.length) :
    (a ++ [x]).get? q = a.get? q := List.get?_append h

theorem get?_append_one_self {α : Type} (a : List α) (x : α) :
    (a ++ [x]).get? a.length = some x := List.get?_concat_length a x

theorem stackGrow_getD_top {stack : List Nat} {dep j : Nat} (h : dep + 1 ≤ stack.length) :
    (if stack.length < dep + 1 + 1 then stack ++ [j] else stack.set (dep + 1) j).getD
      (dep + 1) 0 = j := by
  split
  · have he : dep + 1 = stack.length := by omega
    simp only [List.getD, he]
    rw [List.get?_concat_length]
    rfl
  · simp only [List.getD]
    rw [List.get?_set_eq_of_lt _ (by omega)]
    rfl

theorem stackGrow_getD_lower {stack : List Nat} {dep j q : Nat}
    (h : dep + 1 ≤ stack.length) (hq : q ≤ dep) :
    (if stack.length < dep + 1 + 1 then stack ++ [j] else stack.set (dep + 1) j).getD q 0 =
      stack.getD q 0 := by
  split
  · simp only [List.getD]
    rw [List.get?_append (by omega)]
  · simp only [List.getD]
    rw [List.get?_set_ne _ _ (by omega)]

theorem stackGrow_length {stack : List Nat} {dep j : Nat} (h : dep + 1 ≤ stack.length) :
    dep + 2 ≤ (if stack.length < dep + 1 + 1 then stack ++ [j]
      else stack.set (dep + 1) j).length := by
  split
  · simp
    omega
  · simp
    omega

theorem getD_set_self {stack : List Nat} {dep k : Nat} (h : dep < stack.length) :
    (stack.set dep k).getD dep 0 = k := by
  simp only [List.getD]
  rw [List.get?_set_eq_of_lt _ h]
  rfl

theorem getD_set_other {stack : List Nat} {dep k q : Nat} (h : q ≠ dep) :
    (stack.set dep k).getD q 0 = stack.getD q 0 := by
  simp only [List.getD]
  rw [List.get?_set_ne _ _ (fun he => h he.symm)]

/-! ## `Represents` properties -/

theorem represents_mono (N : Nat) : ∀ (m : Mesh), Mesh.size m ≤ N →
    ∀ (a a2 : List MeshNode) (i : Nat),
    (∀ q, i ≤ q → q < a.length → a2.get? q = a.get? q) →
    Represents a i m → Represents a2 i m := by
  induction N with
  | zero =>
    intro m hm
    exact absurd hm (by have := Mesh.size_pos m; omega)
  | succ N ih =>
    intro m hm a a2 i hagree hr
    cases m with
    | mk b c s =>
      obtain ⟨n, hget, hbody, hc, hs⟩ := hr
      have hlt : i < a.length := get?_some_lt hget
      refine ⟨n, ?_, hbody, ?_, ?_⟩
      · rw [hagree i (le_refl i) hlt]
        exact hget
      · cases c with
        | none =>
          cases hnc : n.child with
          | none => trivial
          | some j =>
            rw [hnc] at hc
            exact hc.elim
        | some cm =>
          cases hnc : n.child with
          | none =>
            rw [hnc] at hc
            exact hc.elim
          | some j =>
            rw [hnc] at hc
            obtain ⟨hij, hrc⟩ := hc
            refine ⟨hij, ih cm (by have := size_child_lt b cm s; omega) a a2 j ?_ hrc⟩
            intro q hq hql
            exact hagree q (by omega) hql
      · cases s with
        | none =>
          cases hns : n.sibling with
          | none => trivial
          | some k =>
            rw [hns] at hs
            exact hs.elim
        | some sm =>
          cases hns : n.sibling with
          | none =>
            rw [hns] at hs
            exact hs.elim
          | some k =>
            rw [hns] at hs
            obtain ⟨hik, hrs⟩ := hs
            refine ⟨hik, ih sm (by have := size_sibling_lt b c sm; omega) a a2 k ?_ hrs⟩
            intro q hq hql
            exact hagree q (by omega) hql

theorem materialize_succ (a : List MeshNode) (f i : Nat) :
    materialize a (f + 1) i =
      match a.get? i with
      | none => none
      | some n =>
        let oc := match n.child with
          | none => some OMesh.none
          | some j => (materialize a f j).map OMesh.some
        let os := match n.sibling with
          | none => some OMesh.none
          | some k => (materialize a f k).map OMesh.some
        match oc, os with
        | some c, some s => some (.mk n.body c s)
        | _, _ => none := rfl

theorem represents_materialize (N : Nat) : ∀ (m : Mesh), Mesh.size m ≤ N →
    ∀ (a : List MeshNode) (i fuel : Nat), a.length ≤ i + fuel →
    Represents a i m → materialize a fuel i = some (clearMesh m) := by
  induction N with
  | zero =>
    intro m hm
    exact absurd hm (by have := Mesh.size_pos m; omega)
  | succ N ih =>
    intro m hm a i fuel hfuel hr
    cases m with
    | mk b c s =>
      obtain ⟨n, hget, hbody, hc, hs⟩ := hr
      have hlt : i < a.length := get?_some_lt hget
      obtain ⟨f, rfl⟩ : ∃ f, fuel = f + 1 := by
        cases fuel with
        | zero => omega
        | succ f => exact ⟨f, rfl⟩
      rw [materialize_succ, hget]
      have hoc : (match n.child with
          | none => some OMesh.none
          | some j => (materialize a f j).map OMesh.some) = some (clearOMesh c) := by
        cases c with
        | none =>
          cases hnc : n.child with
          | none => rfl
          | some j =>
            rw [hnc] at hc
            exact hc.elim
        | some cm =>
          cases hnc : n.child with
          | none =>
            rw [hnc] at hc
            exact hc.elim
          | some j =>
            rw [hnc] at hc
            obtain ⟨hij, hrc⟩ := hc
            have := ih cm (by have := size_child_lt b cm s; omega) a j f (by omega) hrc
            show (materialize a f j).map OMesh.some = _
            rw [this]
            rfl
      have hos : (match n.sibling with
          | none => some OMesh.none
          | some k => (materialize a f k).map OMesh.some) = some (clearOMesh s) := by
        cases s with
        | none =>
          cases hns : n.sibling with
          | none => rfl
          | some k =>
            rw [hns] at hs
            exact hs.elim
        | some sm =>
          cases hns : n.sibling with
          | none =>
            rw [hns] at hs
            exact hs.elim
          | some k =>
            rw [hns] at hs
            obtain ⟨hik, hrs⟩ := hs
            have := ih sm (by have := size_sibling_lt b c sm; omega) a k f (by omega) hrs
            show (materialize a f k).map OMesh.some = _
            rw [this]
            rfl
      show (match (match n.child with
          | none => some OMesh.none
          | some j => (materialize a f j).map OMesh.some),
          (match n.sibling with
          | none => some OMesh.none
          | some k => (materialize a f k).map OMesh.some) with
        | some c, some s => some (Mesh.mk n.body c s)
        | _, _ => none) = some (clearMesh (Mesh.mk b c s))
      rw [hoc, hos, hbody]
      rfl

/-! ## Marker-loop step equations -/

theorem meshLoop_oc_zero (d : List Nat) (fuel p dep : Nat) (stack : List Nat)
    (arena : List MeshNode) : meshLoop d fuel p 0 dep stack arena = .ok (arena, p) := by
  cases fuel <;> rfl

theorem meshLoop_succ (d : List Nat) (fuel p oc dep : Nat) (stack : List Nat)
    (arena : List MeshNode) (hoc : oc ≠ 0) :
    meshLoop d (fuel + 1) p oc dep stack arena =
      match readU32 d p with
      | .error e => .error e
      | .ok (v, p1) =>
        if v = MSH_CHILD then
          match readMeshBody d p1 with
          | .error e => .error e
          | .ok (b, p2) =>
            meshLoop d fuel p2 (oc + 1) (dep + 1)
              (if stack.length < dep + 1 + 1 then stack ++ [arena.length]
               else stack.set (dep + 1) arena.length)
              (setChild arena (stack.getD dep 0) arena.length ++ [⟨b, none, none⟩])
        else if v = MSH_SIBLING then
          match readMeshBody d p1 with
          | .error e => .error e
          | .ok (b, p2) =>
            meshLoop d fuel p2 (oc + 1) dep (stack.set dep arena.length)
              (setSibling arena (stack.getD dep 0) arena.length ++ [⟨b, none, none⟩])
        else if v = MSH_END then meshLoop d fuel p1 (oc - 1) (min dep (oc - 1)) stack arena
        else .error (.unknownBlock v) := if_neg hoc


theorem meshLoop_step_child {d : List Nat} {fuel p oc dep : Nat} {stack : List Nat}
    {arena : List MeshNode} {bdy : MeshBody} {p2 : Nat} (hoc : oc ≠ 0)
    (hread : readU32 d p = .ok (MSH_CHILD, p + 4))
    (hbody : readMeshBody d (p + 4) = .ok (bdy, p2)) :
    meshLoop d (fuel + 1) p oc dep stack arena =
      meshLoop d fuel p2 (oc + 1) (dep + 1)
        (if stack.length < dep + 1 + 1 then stack ++ [arena.length]
         else stack.set (dep + 1) arena.length)
        (setChild arena (stack.getD dep 0) arena.length ++ [⟨bdy, none, none⟩]) := by
  rw [meshLoop_succ d fuel p oc dep stack arena hoc, hread]
  simp only [hbody, if_true]

theorem meshLoop_step_sibling {d : List Nat} {fuel p oc dep : Nat} {stack : List Nat}
    {arena : List MeshNode} {bdy : MeshBody} {p2 : Nat} (hoc : oc ≠ 0)
    (hread : readU32 d p = .ok (MSH_SIBLING, p + 4))
    (hbody : readMeshBody d (p + 4) = .ok (bdy, p2)) :
    meshLoop d (fuel + 1) p oc dep stack arena =
      meshLoop d fuel p2 (oc + 1) dep (stack.set dep arena.length)
        (setSibling arena (stack.getD dep 0) arena.length ++ [⟨bdy, none, none⟩]) := by
  rw [meshLoop_succ d fuel p oc dep stack arena hoc, hread]
  simp only [hbody, if_true]
  rw [if_neg (show ¬MSH_SIBLING = MSH_CHILD by norm_num [MSH_SIBLING, MSH_CHILD])]

theorem meshLoop_step_end {d : List Nat} {fuel p oc dep : Nat} {stack : List Nat}
    {arena : List MeshNode} (hoc : oc ≠ 0)
    (hread : readU32 d p = .ok (MSH_END, p + 4)) :
    meshLoop d (fuel + 1) p oc dep stack arena =
      meshLoop d fuel (p + 4) (oc - 1) (min dep (oc - 1)) stack arena := by
  rw [meshLoop_succ d fuel p oc dep stack arena hoc, hread]
  simp only [if_true, eq_self_iff_true]
  rw [if_neg (show ¬MSH_END = MSH_CHILD by norm_num [MSH_END, MSH_CHILD]),
    if_neg (show ¬MSH_END = MSH_SIBLING by norm_num [MSH_END, MSH_SIBLING])]

theorem meshLoop_step_unknown {d : List Nat} {fuel p oc dep : Nat} {stack : List Nat}
    {arena : List MeshNode} {v : Nat} (hoc : oc ≠ 0)
    (hread : readU32 d p = .ok (v, p + 4))
    (h1 : v ≠ MSH_CHILD) (h2 : v ≠ MSH_SIBLING) (h3 : v ≠ MSH_END) :
    meshLoop d (fuel + 1) p oc dep stack arena = .error (.unknownBlock v) := by
  rw [meshLoop_succ d fuel p oc dep stack arena hoc, hread]
  simp only [eq_false h1, eq_false h2, eq_false h3, if_false]

/-! ## The marker-loop simulation lemma -/

theorem MSH_CHILD_lt : MSH_CHILD < 2 ^ 32 := by norm_num [MSH_CHILD]

theorem MSH_SIBLING_lt : MSH_SIBLING < 2 ^ 32 := by norm_num [MSH_SIBLING]

theorem MSH_END_lt : MSH_END < 2 ^ 32 := by norm_num [MSH_END]

theorem wfMeshTree_elim {b : MeshBody} {c s : OMesh}
    (h : wfMeshTree (.mk b c s) = true) :
    wfMeshBody b = true ∧ wfOMeshTree c = true ∧ wfOMeshTree s = true := by
  simpa [wfMeshTree, and_assoc] using h

theorem wfMeshTree_body {m : Mesh} (h : wfMeshTree m = true) :
    wfMeshBody m.body = true := by
  cases m with
  | mk b c s => exact (wfMeshTree_elim h).1

theorem stackGrow_length_ge (stack : List Nat) (dep j : Nat) :
    stack.length ≤ (if stack.length < dep + 1 + 1 then stack ++ [j]
      else stack.set (dep + 1) j).length := by
  split
  · simp
  · simp

/-- Every marker-loop iteration consumed by a mesh tail is witnessed by at
least one of its bytes. -/
theorem tokens_le (N : Nat) : ∀ (m : Mesh), Mesh.size m ≤ N →
    tokens m ≤ (writeMeshTail m).length := by
  induction N with
  | zero =>
    intro m hm
    exact absurd hm (by have := Mesh.size_pos m; omega)
  | succ N ih =>
    intro m hm
    cases m with
    | mk b c s =>
      have hc : otokens c ≤ (writeChildPart c).length := by
        cases c with
        | none => exact Nat.le_refl 0
        | some cm =>
          have := ih cm (by have := size_child_lt b cm s; omega)
          show 1 + tokens cm ≤ (leBytes 4 MSH_CHILD ++ writeMesh cm).length
          rw [List.length_append, leBytes_length, writeMesh_eq cm, List.length_append]
          omega
      have hs : otokens s ≤ (writeSiblingPart s).length := by
        cases s with
        | none => exact Nat.le_refl 0
        | some sm =>
          have := ih sm (by have := size_sibling_lt b c sm; omega)
          show 1 + tokens sm ≤ (leBytes 4 MSH_SIBLING ++ writeMesh sm).length
          rw [List.length_append, leBytes_length, writeMesh_eq sm, List.length_append]
          omega
      show otokens c + 1 + otokens s ≤
        (writeChildPart c ++ (leBytes 4 MSH_END ++ writeSiblingPart s)).length
      simp only [List.length_append, leBytes_length]
      omega

theorem representsO_agree {a a2 : List MeshNode} {i : Nat} {oj : Option Nat} {c : OMesh}
    (hagree : ∀ q, q < a.length → q ≠ i → a2.get? q = a.get? q)
    (h : RepresentsO a i oj c) : RepresentsO a2 i oj c := by
  cases c with
  | none =>
    cases oj with
    | none => trivial
    | some j => exact h.elim
  | some cm =>
    cases oj with
    | none => exact h.elim
    | some j =>
      obtain ⟨hij, hrc⟩ := h
      refine ⟨hij, represents_mono (Mesh.size cm) cm (Nat.le_refl _) a a2 j ?_ hrc⟩
      intro q hq hql
      exact hagree q hql (by omega)

/-- Running the marker loop over the encoded tail of `m`, starting with the
node for `m` freshly opened at arena slot `i` and stack depth `dep` (open
count `dep + 1`), consumes exactly those bytes, returns to open count `dep`
at depth `dep`, leaves lower stack entries and unrelated arena slots
untouched, and leaves the arena representing `m` at `i`. -/
theorem meshLoop_run (N : Nat) : ∀ (m : Mesh), Mesh.size m ≤ N →
    ∀ (d : List Nat) (p dep f i : Nat) (stack : List Nat) (arena : List MeshNode),
    grab d p (writeMeshTail m).length = writeMeshTail m →
    p + (writeMeshTail m).length ≤ d.length →
    wfMeshTree m = true →
    (dep = 0 → m.sibling = OMesh.none) →
    stack.getD dep 0 = i →
    dep + 1 ≤ stack.length →
    arena.get? i = some ⟨clearBody m.body, none, none⟩ →
    ∃ (stack2 : List Nat) (arena2 : List MeshNode),
      meshLoop d (tokens m + f) p (dep + 1) dep stack arena
        = meshLoop d f (p + (writeMeshTail m).length) dep dep stack2 arena2
      ∧ stack.length ≤ stack2.length
      ∧ (∀ q, q < dep → stack2.getD q 0 = stack.getD q 0)
      ∧ arena.length ≤ arena2.length
      ∧ (∀ q, q < arena.length → q ≠ i → arena2.get? q = arena.get? q)
      ∧ Represents arena2 i m := by
  induction N with
  | zero =>
    intro m hm
    exact absurd hm (by have := Mesh.size_pos m; omega)
  | succ N ih =>
    intro m hm d p dep f i stack arena hg hb hwf hsib hstack hslen hcell
    cases m with
    | mk b c s =>
      obtain ⟨hwfb, hwfc, hwfs⟩ := wfMeshTree_elim hwf
      have hilt : i < arena.length := get?_some_lt hcell
      have hT : writeMeshTail (Mesh.mk b c s)
          = writeChildPart c ++ (leBytes 4 MSH_END ++ writeSiblingPart s) := rfl
      have hTL : (writeMeshTail (Mesh.mk b c s)).length
          = (writeChildPart c).length + (4 + (writeSiblingPart s).length) := by
        rw [hT]
        simp only [List.length_append, leBytes_length]
      rw [hTL] at hg hb
      rw [hTL]
      rw [hT] at hg
      obtain ⟨gC, gRest⟩ := grab_split hb hg rfl
      obtain ⟨gEnd, gSib⟩ := grab_split (by omega) gRest (leBytes_length 4 MSH_END)
      have hmid : ∃ (stackB : List Nat) (arenaB : List MeshNode),
          meshLoop d (tokens (Mesh.mk b c s) + f) p (dep + 1) dep stack arena
            = meshLoop d (otokens s + f) (p + (writeChildPart c).length + 4) dep dep
                stackB arenaB
          ∧ stack.length ≤ stackB.length
          ∧ dep + 1 ≤ stackB.length
          ∧ (∀ q, q ≤ dep → stackB.getD q 0 = stack.getD q 0)
          ∧ arena.length ≤ arenaB.length
          ∧ (∀ q, q < arena.length → q ≠ i → arenaB.get? q = arena.get? q)
          ∧ ∃ nb : MeshNode, arenaB.get? i = some nb ∧ nb.body = clearBody b
              ∧ RepresentsO arenaB i nb.child c ∧ nb.sibling = none := by
        cases c with
        | none =>
          have hEnd := readU32_consumes MSH_END_lt d p
          rw [Consumes, leBytes_length] at hEnd
          rw [show p + (writeChildPart OMesh.none).length = p from rfl] at gEnd
          have hread : readU32 d p = .ok (MSH_END, p + 4) := hEnd gEnd (by omega)
          refine ⟨stack, arena, ?_, Nat.le_refl _, hslen, fun q _ => rfl, Nat.le_refl _,
            fun q _ _ => rfl, ⟨clearBody b, none, none⟩, hcell, rfl, True.intro, rfl⟩
          rw [show tokens (Mesh.mk b OMesh.none s) + f = (otokens s + f) + 1 from by
            show 0 + 1 + otokens s + f = (otokens s + f) + 1
            omega]
          rw [meshLoop_step_end (Nat.succ_ne_zero dep) hread]
          rw [show dep + 1 - 1 = dep from rfl, Nat.min_self]
          rw [show p + (writeChildPart OMesh.none).length + 4 = p + 4 from rfl]
        | some cm =>
          have hwfcm : wfMeshTree cm = true := hwfc
          have hCP : writeChildPart (OMesh.some cm)
              = leBytes 4 MSH_CHILD ++ (writeMeshBody cm.body ++ writeMeshTail cm) := by
            show leBytes 4 MSH_CHILD ++ writeMesh cm = _
            rw [writeMesh_eq cm]
          have hLc : (writeChildPart (OMesh.some cm)).length
              = 4 + ((writeMeshBody cm.body).length + (writeMeshTail cm).length) := by
            rw [hCP]
            simp only [List.length_append, leBytes_length]
          rw [hLc, hCP] at gC
          rw [hLc] at hb
          obtain ⟨g1, g2⟩ := grab_split (by omega) gC (leBytes_length 4 MSH_CHILD)
          obtain ⟨gBody, gTail⟩ := grab_split (by omega) g2 rfl
          have hC4 := readU32_consumes MSH_CHILD_lt d p
          rw [Consumes, leBytes_length] at hC4
          have hread1 : readU32 d p = .ok (MSH_CHILD, p + 4) := hC4 g1 (by omega)
          have hbody1 : readMeshBody d (p + 4)
              = .ok (clearBody cm.body, p + 4 + (writeMeshBody cm.body).length) :=
            readMeshBody_consumes (wfMeshTree_body hwfcm) d (p + 4) gBody (by omega)
          have hcell1 : (setChild arena i arena.length
              ++ [(⟨clearBody cm.body, none, none⟩ : MeshNode)]).get? arena.length
              = some ⟨clearBody cm.body, none, none⟩ := by
            have h0 := get?_append_one_self (setChild arena i arena.length)
              (⟨clearBody cm.body, none, none⟩ : MeshNode)
            rw [setChild_length] at h0
            exact h0
          have ihc := ih cm (by have := size_child_lt b cm s; omega) d
            (p + 4 + (writeMeshBody cm.body).length) (dep + 1) (1 + (otokens s + f))
            arena.length
            (if stack.length < dep + 1 + 1 then stack ++ [arena.length]
              else stack.set (dep + 1) arena.length)
            (setChild arena i arena.length ++ [⟨clearBody cm.body, none, none⟩])
            gTail (by omega) hwfcm (fun h0 => absurd h0 (Nat.succ_ne_zero dep))
            (stackGrow_getD_top hslen) (stackGrow_length hslen) hcell1
          obtain ⟨stack2, arena2, heq2, hlen2, hpres2, halen2, hapres2, hrep2⟩ := ihc
          have hE4 := readU32_consumes MSH_END_lt d
            (p + 4 + (writeMeshBody cm.body).length + (writeMeshTail cm).length)
          rw [Consumes, leBytes_length] at hE4
          rw [show p + (writeChildPart (OMesh.some cm)).length
              = p + 4 + (writeMeshBody cm.body).length + (writeMeshTail cm).length from by
            rw [hLc]
            omega] at gEnd
          have hreadE : readU32 d (p + 4 + (writeMeshBody cm.body).length
              + (writeMeshTail cm).length)
              = .ok (MSH_END, p + 4 + (writeMeshBody cm.body).length
                  + (writeMeshTail cm).length + 4) := hE4 gEnd (by omega)
          have ha1 : (setChild arena i arena.length
              ++ [(⟨clearBody cm.body, none, none⟩ : MeshNode)]).length
              = arena.length + 1 := by
            rw [List.length_append, setChild_length]
            rfl
          have heqFull : meshLoop d (tokens (Mesh.mk b (OMesh.some cm) s) + f) p (dep + 1)
              dep stack arena
              = meshLoop d (otokens s + f)
                  (p + (writeChildPart (OMesh.some cm)).length + 4) dep dep
                  stack2 arena2 := by
            rw [show tokens (Mesh.mk b (OMesh.some cm) s) + f
                = (tokens cm + (1 + (otokens s + f))) + 1 from by
              show 1 + tokens cm + 1 + otokens s + f = (tokens cm + (1 + (otokens s + f))) + 1
              omega]
            rw [meshLoop_step_child (Nat.succ_ne_zero dep) hread1 hbody1, hstack, heq2]
            rw [show 1 + (otokens s + f) = (otokens s + f) + 1 from by omega]
            rw [meshLoop_step_end (Nat.succ_ne_zero dep) hreadE]
            rw [show dep + 1 - 1 = dep from rfl, show min (dep + 1) dep = dep from by omega]
            rw [show p + (writeChildPart (OMesh.some cm)).length + 4
                = p + 4 + (writeMeshBody cm.body).length + (writeMeshTail cm).length + 4
                from by
              rw [hLc]
              omega]
          refine ⟨stack2, arena2, heqFull, ?_, ?_, ?_, ?_, ?_, ?_⟩
          · exact le_trans (stackGrow_length_ge stack dep arena.length) hlen2
          · have := @stackGrow_length stack dep arena.length hslen
            omega
          · intro q hq
            rw [hpres2 q (by omega), stackGrow_getD_lower hslen hq]
          · rw [ha1] at halen2
            omega
          · intro q hq hqi
            rw [hapres2 q (by rw [ha1]; omega) (by omega)]
            rw [get?_append_one_lt (by rw [setChild_length]; exact hq)]
            exact setChild_get_ne hqi
          · refine ⟨⟨clearBody b, some arena.length, none⟩, ?_, rfl, ⟨hilt, hrep2⟩, rfl⟩
            rw [hapres2 i (by rw [ha1]; omega) (by omega)]
            rw [get?_append_one_lt (by rw [setChild_length]; exact hilt)]
            exact setChild_get_same hcell
      obtain ⟨stackB, arenaB, heqB, hlenB, hdlenB, hpresB, halenB, hapresB,
        nb, hgetB, hbodyB, hchildB, hsibB⟩ := hmid
      have hiltB : i < arenaB.length := get?_some_lt hgetB
      cases s with
      | none =>
        refine ⟨stackB, arenaB, ?_, hlenB, fun q hq => hpresB q (by omega), halenB,
          hapresB, ?_⟩
        · rw [heqB]
          rw [show otokens OMesh.none + f = f from by
            show 0 + f = f
            omega]
          rw [show p + ((writeChildPart c).length + (4 + (writeSiblingPart OMesh.none).length))
              = p + (writeChildPart c).length + 4 from by
            show p + ((writeChildPart c).length + (4 + ([] : List Nat).length)) = _
            simp only [List.length_nil]
            omega]
        · refine ⟨nb, hgetB, hbodyB, hchildB, ?_⟩
          rw [hsibB]
          trivial
      | some sm =>
        have hwfsm : wfMeshTree sm = true := hwfs
        have hdep0 : dep ≠ 0 := by
          intro h0
          have hx : OMesh.some sm = OMesh.none := hsib h0
          cases hx
        have hSP : writeSiblingPart (OMesh.some sm)
            = leBytes 4 MSH_SIBLING ++ (writeMeshBody sm.body ++ writeMeshTail sm) := by
          show leBytes 4 MSH_SIBLING ++ writeMesh sm = _
          rw [writeMesh_eq sm]
        have hLs : (writeSiblingPart (OMesh.some sm)).length
            = 4 + ((writeMeshBody sm.body).length + (writeMeshTail sm).length) := by
          rw [hSP]
          simp only [List.length_append, leBytes_length]
        rw [hLs, hSP] at gSib
        rw [hLs] at hb
        obtain ⟨g1s, g2s⟩ := grab_split (by omega) gSib (leBytes_length 4 MSH_SIBLING)
        obtain ⟨gBodyS, gTailS⟩ := grab_split (by omega) g2s rfl
        have hS4 := readU32_consumes MSH_SIBLING_lt d (p + (writeChildPart c).length + 4)
        rw [Consumes, leBytes_length] at hS4
        have hreadS : readU32 d (p + (writeChildPart c).length + 4)
            = .ok (MSH_SIBLING, p + (writeChildPart c).length + 4 + 4) :=
          hS4 g1s (by omega)
        have hbodyS : readMeshBody d (p + (writeChildPart c).length + 4 + 4)
            = .ok (clearBody sm.body, p + (writeChildPart c).length + 4 + 4
                + (writeMeshBody sm.body).length) :=
          readMeshBody_consumes (wfMeshTree_body hwfsm) d _ gBodyS (by omega)
        have hcell3 : (setSibling arenaB i arenaB.length
            ++ [(⟨clearBody sm.body, none, none⟩ : MeshNode)]).get? arenaB.length
            = some ⟨clearBody sm.body, none, none⟩ := by
          have h0 := get?_append_one_self (setSibling arenaB i arenaB.length)
            (⟨clearBody sm.body, none, none⟩ : MeshNode)
          rw [setSibling_length] at h0
          exact h0
        have ihs := ih sm (by have := size_sibling_lt b c sm; omega) d
          (p + (writeChildPart c).length + 4 + 4 + (writeMeshBody sm.body).length)
          dep f arenaB.length (stackB.set dep arenaB.length)
          (setSibling arenaB i arenaB.length ++ [⟨clearBody sm.body, none, none⟩])
          gTailS (by omega) hwfsm (fun h0 => absurd h0 hdep0)
          (getD_set_self (by omega)) (by rw [List.length_set]; exact hdlenB) hcell3
        obtain ⟨stack4, arena4, heq4, hlen4, hpres4, halen4, hapres4, hrep4⟩ := ihs
        have ha3 : (setSibling arenaB i arenaB.length
            ++ [(⟨clearBody sm.body, none, none⟩ : MeshNode)]).length
            = arenaB.length + 1 := by
          rw [List.length_append, setSibling_length]
          rfl
        have heqFullS : meshLoop d (tokens (Mesh.mk b c (OMesh.some sm)) + f) p (dep + 1)
            dep stack arena
            = meshLoop d f
                (p + ((writeChildPart c).length
                  + (4 + (writeSiblingPart (OMesh.some sm)).length))) dep dep
                stack4 arena4 := by
          rw [heqB]
          rw [show otokens (OMesh.some sm) + f = (tokens sm + f) + 1 from by
            show 1 + tokens sm + f = (tokens sm + f) + 1
            omega]
          rw [meshLoop_step_sibling hdep0 hreadS hbodyS]
          rw [show stackB.getD dep 0 = i from by rw [hpresB dep (Nat.le_refl dep), hstack]]
          rw [heq4]
          rw [show p + ((writeChildPart c).length
              + (4 + (writeSiblingPart (OMesh.some sm)).length))
              = p + (writeChildPart c).length + 4 + 4 + (writeMeshBody sm.body).length
                + (writeMeshTail sm).length from by
            rw [hLs]
            omega]
        refine ⟨stack4, arena4, heqFullS, ?_, ?_, ?_, ?_, ?_⟩
        · have h3l : (stackB.set dep arenaB.length).length = stackB.length := by simp
          omega
        · intro q hq
          rw [hpres4 q (by omega), getD_set_other (by omega), hpresB q (by omega)]
        · have := halen4
          rw [ha3] at this
          omega
        · intro q hq hqi
          rw [hapres4 q (by rw [ha3]; omega) (by omega)]
          rw [get?_append_one_lt (by rw [setSibling_length]; omega)]
          rw [setSibling_get_ne hqi]
          exact hapresB q hq hqi
        · have hBagree : ∀ q, q < arenaB.length → q ≠ i →
              arena4.get? q = arenaB.get? q := by
            intro q hq hqi
            rw [hapres4 q (by rw [ha3]; omega) (by omega)]
            rw [get?_append_one_lt (by rw [setSibling_length]; exact hq)]
            exact setSibling_get_ne hqi
          have hget4 : arena4.get? i = some ⟨nb.body, nb.child, some arenaB.length⟩ := by
            rw [hapres4 i (by rw [ha3]; omega) (by omega)]
            rw [get?_append_one_lt (by rw [setSibling_length]; exact hiltB)]
            exact setSibling_get_same hgetB
          refine ⟨⟨nb.body, nb.child, some arenaB.length⟩, hget4, hbodyB, ?_,
            ⟨hiltB, hrep4⟩⟩
          exact representsO_agree hBagree hchildB

/-! ## Tree, block and whole-file specifications -/

theorem MSH_EOF_lt : MSH_EOF < 2 ^ 32 := by norm_num [MSH_EOF]

theorem readMeshTree_consumes {m : Mesh} (hwf : wfMeshTree m = true)
    (hroot : m.sibling = OMesh.none) (d : List Nat) (p : Nat) :
    Consumes readMeshTree d p (writeMesh m) (clearMesh m) := by
  intro hg hb
  rw [show (writeMesh m).length
      = (writeMeshBody m.body).length + (writeMeshTail m).length from by
    rw [writeMesh_eq m, List.length_append]] at hg hb ⊢
  rw [writeMesh_eq m] at hg
  obtain ⟨gBody, gTail⟩ := grab_split hb hg rfl
  have hbody : readMeshBody d p
      = .ok (clearBody m.body, p + (writeMeshBody m.body).length) :=
    readMeshBody_consumes (wfMeshTree_body hwf) d p gBody (by omega)
  have hrun := meshLoop_run (Mesh.size m) m (Nat.le_refl _) d
    (p + (writeMeshBody m.body).length) 0 (d.length + 1 - tokens m) 0 [0]
    [⟨clearBody m.body, none, none⟩] gTail (by omega) hwf (fun _ => hroot) rfl
    (by simp) rfl
  obtain ⟨stack2, arena2, heq, _, _, _, _, hrep⟩ := hrun
  simp only [Nat.zero_add] at heq
  have hmat := represents_materialize (Mesh.size m) m (Nat.le_refl _) arena2 0
    (arena2.length + 1) (by omega) hrep
  have htok := tokens_le (Mesh.size m) m (Nat.le_refl _)
  unfold readMeshTree
  rw [hbody]
  show (match meshLoop d (d.length + 1) (p + (writeMeshBody m.body).length) 1 0 [0]
      [⟨clearBody m.body, none, none⟩] with
    | .error e => Except.error e
    | .ok (arena, p2) =>
      match materialize arena (arena.length + 1) 0 with
      | some mm => Except.ok (mm, p2)
      | none => Except.error MshErr.truncated) = _
  rw [show d.length + 1 = tokens m + (d.length + 1 - tokens m) from by omega]
  rw [heq, meshLoop_oc_zero]
  show (match materialize arena2 (arena2.length + 1) 0 with
    | some mm => Except.ok (mm,
        p + (writeMeshBody m.body).length + (writeMeshTail m).length)
    | none => Except.error MshErr.truncated) = _
  rw [hmat]
  show Except.ok (clearMesh m,
      p + (writeMeshBody m.body).length + (writeMeshTail m).length) = _
  rw [show p + ((writeMeshBody m.body).length + (writeMeshTail m).length)
      = p + (writeMeshBody m.body).length + (writeMeshTail m).length from by omega]

theorem checkEof_consumes (d : List Nat) (p : Nat) :
    Consumes checkEof d p (leBytes 4 MSH_EOF) () := by
  intro hg hb
  rw [leBytes_length] at hg hb
  have h4 := readU32_consumes MSH_EOF_lt d p
  rw [Consumes, leBytes_length] at h4
  unfold checkEof
  rw [h4 hg hb]
  show (if MSH_EOF = MSH_EOF then Except.ok ((), p + 4)
      else Except.error MshErr.invalidFormat) = Except.ok ((), p + 4)
  rw [if_pos rfl]

theorem isNone_elim {o : OMesh} (h : o.isNone = true) : o = OMesh.none := by
  cases o with
  | none => rfl
  | some m => exact Bool.noConfusion h

theorem counted_shift (wr : α → List Nat) (l : List α) (R : List Nat) :
    writeCounted wr l ++ R = leBytes 4 l.length ++ ((l.map wr).flatten ++ R) := by
  rw [show writeCounted wr l = leBytes 4 l.length ++ (l.map wr).flatten from rfl,
    List.append_assoc]

/-- Junction composition: a probe-terminated counted list followed by a
counted list whose 4-byte count prefix is the value the probes peeked. -/
theorem peeks_bind_counted {γ β α : Type} {x : P γ} {f : γ → P β} {d : List Nat} {p : Nat}
    {w1 : List Nat} {wr : α → List Nat} {l : List α} {R : List Nat} {a : γ} {b : β}
    (hx : Peeks x d p w1 l.length a)
    (hf : Consumes (f a) d (p + w1.length) (writeCounted wr l ++ R) b) :
    Consumes (x >>= f) d p (w1 ++ (writeCounted wr l ++ R)) b := by
  refine consumes_congr ?_
    (peeks_bind_consumes hx (consumes_congr (counted_shift wr l R) hf))
  rw [counted_shift]

theorem wfBlock_elim {bk : Block} (h : wfBlock bk = true) :
    bk.block_info < 2 ^ 64 ∧ wfName bk.name = true ∧ bk.sphere < 2 ^ 640 ∧
      bk.msh_header < 2 ^ 224 ∧
      wfBlobList 12 bk.vertices = true ∧ wfBlobList 12 bk.vertex_normals = true ∧
      wfBlobList 8 bk.uvs = true ∧ wfBlobList 4 bk.vert_colors = true ∧
      wfBlobList 20 bk.faces = true ∧
      bk.buckydescriptions.length < 2 ^ 32 ∧
      wfBuckyList bk.buckydescriptions bk.vert_to_state.length = true ∧
      bk.vert_to_state.length < 2 ^ 32 ∧ bk.vert_to_state.all wfVts = true ∧
      bk.vert_groups.length < 2 ^ 32 ∧
      wfVGList bk.vert_groups bk.indices.length = true ∧
      wfBlobList 2 bk.indices = true ∧ wfBlobList 16 bk.planes = true ∧
      wfBlobList 64 bk.state_matrices = true ∧ wfBlobList 36 bk.states = true ∧
      bk.animation_list.length < 2 ^ 32 ∧ bk.animation_list.all wfAnimList = true ∧
      wfMeshTree bk.root = true ∧ bk.root.sibling.isNone = true := by
  simpa [wfBlock, and_assoc] using h

theorem readBlockCore_consumes {bk : Block} (hwf : wfBlock bk = true) (d : List Nat)
    (p : Nat) :
    Consumes readBlockCore d p
      (leBytes 8 bk.block_info ++ write_name bk.name ++ leBytes 80 bk.sphere ++
        leBytes 28 bk.msh_header ++
        writeCounted (leBytes 12) bk.vertices ++
        writeCounted (leBytes 12) bk.vertex_normals ++
        writeCounted (leBytes 8) bk.uvs ++ writeCounted (leBytes 4) bk.vert_colors ++
        writeCounted (leBytes 20) bk.faces ++
        writeCounted writeBuckyDesc bk.buckydescriptions ++
        writeCounted writeVtsContainer bk.vert_to_state ++
        writeCounted writeVertGroup bk.vert_groups ++ writeCounted (leBytes 2) bk.indices ++
        writeCounted (leBytes 16) bk.planes ++ writeCounted (leBytes 64) bk.state_matrices ++
        writeCounted (leBytes 36) bk.states ++ writeCounted writeAnimList bk.animation_list ++
        writeMesh bk.root)
      (clearBlock bk) := by
  obtain ⟨h1, h2, h3, h4, h5, h6, h7, h8, h9, h10, h11, h12, h13, h14, h15, h16, h17,
    h18, h19, h20, h21, h22, h23⟩ := wfBlock_elim hwf
  have hltIx : bk.indices.length < 2 ^ 32 := (wfBlobList_elim h16).1
  unfold readBlockCore
  simp only [List.append_assoc]
  refine consumes_bind (readBlob_consumes h1 d p) ?_
  refine consumes_bind (readName_consumes h2 d _) ?_
  refine consumes_bind (readBlob_consumes h3 d _) ?_
  refine consumes_bind (readBlob_consumes h4 d _) ?_
  refine consumes_bind (readBlobList_consumes h5 d _) ?_
  refine consumes_bind (readBlobList_consumes h6 d _) ?_
  refine consumes_bind (readBlobList_consumes h7 d _) ?_
  refine consumes_bind (readBlobList_consumes h8 d _) ?_
  refine consumes_bind (readBlobList_consumes h9 d _) ?_
  refine peeks_bind_counted (readBuckyList_peeks h10 h11 h12 d _) ?_
  refine consumes_bind (readVertToState_consumes h12 h13 d _) ?_
  refine peeks_bind_counted (readVGList_peeks h14 h15 hltIx d _) ?_
  refine consumes_bind (readBlobList_consumes h16 d _) ?_
  refine consumes_bind (readBlobList_consumes h17 d _) ?_
  refine consumes_bind (readBlobList_consumes h18 d _) ?_
  refine consumes_bind (readBlobList_consumes h19 d _) ?_
  refine consumes_bind (readCounted_consumes h20
    (fun x hx q => readAnimList_consumes (List.all_eq_true.mp h21 x hx) d q) _) ?_
  exact consumes_map (readMeshTree_consumes h22 (isNone_elim h23) d _)

theorem readBlock_consumes {bk : Block} (hwf : wfBlock bk = true) (d : List Nat)
    (p : Nat) : Consumes readBlock d p (writeBlock bk) (clearBlock bk) := by
  unfold readBlock writeBlock
  exact consumes_bind (readBlockCore_consumes hwf d p)
    (consumes_map (checkEof_consumes d _))

theorem wfHeader_elim {h : BlockHeader} (hwf : wfHeader h = true) :
    h.fileType < 2 ^ 32 ∧ h.verID < 2 ^ 32 ∧ h.blockCount < 2 ^ 32 ∧
      h.notUsed < 2 ^ 256 := by
  simpa [wfHeader, and_assoc] using hwf

theorem readBlockHeader_consumes {h : BlockHeader} (hwf : wfHeader h = true)
    (d : List Nat) (p : Nat) :
    Consumes readBlockHeader d p (writeBlockHeader h) h := by
  obtain ⟨h1, h2, h3, h4⟩ := wfHeader_elim hwf
  unfold readBlockHeader writeBlockHeader
  simp only [List.append_assoc]
  refine consumes_bind (readBlob_consumes h1 d p) ?_
  refine consumes_bind (readBlob_consumes h2 d _) ?_
  refine consumes_bind (readBlob_consumes h3 d _) ?_
  exact consumes_map (readBlob_consumes h4 d _)

theorem readList_consumes_map {elem : P α} {wr : α → List Nat} {cl : α → α}
    {d : List Nat} {lst : List α}
    (h : ∀ x ∈ lst, ∀ q : Nat, Consumes elem d q (wr x) (cl x)) :
    ∀ p : Nat, Consumes (readList elem lst.length) d p ((lst.map wr).flatten)
      (lst.map cl) := by
  induction lst with
  | nil => exact fun p => consumes_pure [] d p
  | cons x t ih =>
    intro p
    exact consumes_bind (h x (List.mem_cons_self x t) p)
      (consumes_map (ih (fun y hy q => h y (List.mem_cons_of_mem x hy) q) _))

theorem wfMSH_elim {m : MSH} (hwf : wfMSH m = true) :
    wfHeader m.block_header = true ∧
      (m.block_header.blockCount == m.blocks.length) = true ∧
      m.blocks.length < 2 ^ 32 ∧ m.blocks.all wfBlock = true := by
  simpa [wfMSH, and_assoc] using hwf

theorem readMSH_consumes {m : MSH} (hwf : wfMSH m = true) (d : List Nat) (p : Nat) :
    Consumes readMSH d p (writeMSH m) (clearMSH m) := by
  obtain ⟨hh, hbc, hlen, hall⟩ := wfMSH_elim hwf
  have hbc2 : m.block_header.blockCount = m.blocks.length := beq_nat_elim hbc
  unfold readMSH writeMSH
  rw [show (⟨m.block_header.fileType, m.block_header.verID, m.blocks.length,
      m.block_header.notUsed⟩ : BlockHeader) = m.block_header from by rw [← hbc2]]
  refine consumes_bind (readBlockHeader_consumes hh d p) ?_
  rw [hbc2]
  exact consumes_map (readList_consumes_map
    (fun b hb q => readBlock_consumes (List.all_eq_true.mp hall b hb) d q) _)

/-- The whole-file round trip on well-formed graphs: decoding a fresh
encode succeeds, consumes every byte, and returns the graph with every
`end_marker` cleared. -/
theorem decodeMSH_writeMSH {m : MSH} (hwf : wfMSH m = true) :
    decodeMSH (writeMSH m) = .ok (clearMSH m, (writeMSH m).length) := by
  have h := readMSH_consumes hwf (writeMSH m) 0 (by rw [grab]; simp) (by omega)
  rw [Nat.zero_add] at h
  exact h

/-! ## Further auxiliaries for the claim statements -/

theorem MSH_END_OF_OPTIONALS_lt : MSH_END_OF_OPTIONALS < 2 ^ 32 := by
  norm_num [MSH_END_OF_OPTIONALS]

theorem opt_case_eoo {d : List Nat} {p : Nat}
    (hg : grab d p 4 = leBytes 4 MSH_END_OF_OPTIONALS) (hb : p + 4 ≤ d.length) :
    read_optional_blocks d p = .ok ((none, none, true), p + 4) := by
  have hne1 : MSH_END_OF_OPTIONALS ≠ MSH_MATERIAL := by
    norm_num [MSH_END_OF_OPTIONALS, MSH_MATERIAL]
  have hne2 : MSH_END_OF_OPTIONALS ≠ MSH_TEXTURE := by
    norm_num [MSH_END_OF_OPTIONALS, MSH_TEXTURE]
  have h1 : probe MSH_MATERIAL readMaterial d p = .ok (none, p) :=
    probe_miss_peeks readMaterial MSH_END_OF_OPTIONALS_lt hne1 rfl hg hb
  have h2 : probe MSH_TEXTURE readTexture d p = .ok (none, p) :=
    probe_miss_peeks readTexture MSH_END_OF_OPTIONALS_lt hne2 rfl hg hb
  have h3 : probeFlag MSH_END_OF_OPTIONALS d p = .ok (true, p + 4) := by
    have h4 := readU32_consumes MSH_END_OF_OPTIONALS_lt d p
    rw [Consumes, leBytes_length] at h4
    have hr : readU32 d p = .ok (MSH_END_OF_OPTIONALS, p + 4) := h4 hg hb
    unfold probeFlag
    rw [hr]
    show (if MSH_END_OF_OPTIONALS = MSH_END_OF_OPTIONALS then Except.ok (true, p + 4)
        else Except.ok (false, p)) = Except.ok (true, p + 4)
    rw [if_pos rfl]
  unfold read_optional_blocks
  simp only [P.bind_ok h1, P.bind_ok h2, P.bind_ok h3, P.pure_def]

theorem sameShape_clear (N : Nat) : ∀ (m : Mesh), Mesh.size m ≤ N →
    sameShape (clearMesh m) m = true := by
  induction N with
  | zero =>
    intro m hm
    exact absurd hm (by have := Mesh.size_pos m; omega)
  | succ N ih =>
    intro m hm
    cases m with
    | mk b c s =>
      have hc : sameShapeO (clearOMesh c) c = true := by
        cases c with
        | none => rfl
        | some cm => exact ih cm (by have := size_child_lt b cm s; omega)
      have hs : sameShapeO (clearOMesh s) s = true := by
        cases s with
        | none => rfl
        | some sm => exact ih sm (by have := size_sibling_lt b c sm; omega)
      show (sameShapeO (clearOMesh c) c && sameShapeO (clearOMesh s) s) = true
      rw [hc, hs]
      rfl

theorem vtsPairs_length (l : List VertIndex) :
    ((l.map (fun v => leBytes 4 v.weight ++ leBytes 2 v.index)).flatten).length
      = 6 * l.length := by
  induction l with
  | nil => rfl
  | cons x t ih =>
    rw [List.map_cons, List.flatten_cons, List.length_append, List.length_append,
      leBytes_length, leBytes_length, ih, List.length_cons]
    omega

theorem writeVtsContainer_length (c : VertIndexContainer) :
    (writeVtsContainer c).length = 4 + 6 * c.array.length := by
  show (leBytes 4 c.count ++
      (c.array.map (fun v => leBytes 4 v.weight ++ leBytes 2 v.index)).flatten).length = _
  rw [List.length_append, leBytes_length, vtsPairs_length]

theorem writeCounted_vts_length (lst : List VertIndexContainer) :
    (writeCounted writeVtsContainer lst).length
      = 4 + (lst.map (fun c => 4 + 6 * c.array.length)).sum := by
  show (leBytes 4 lst.length ++ (lst.map writeVtsContainer).flatten).length = _
  rw [List.length_append, leBytes_length]
  congr 1
  induction lst with
  | nil => rfl
  | cons x t ih =>
    rw [List.map_cons, List.flatten_cons, List.length_append, writeVtsContainer_length,
      List.map_cons, List.sum_cons, ih]

theorem readBlob_ok_pos {n : Nat} {d : List Nat} {p v q : Nat}
    (h : readBlob n d p = .ok (v, q)) : q = p + n := by
  unfold readBlob at h
  split at h
  · injection h with h1
    injection h1 with ha hb
    exact hb.symm
  · exact Except.noConfusion h

theorem readU32_writeMSH_count (m : MSH) :
    readU32 (writeMSH m) 8 = .ok (m.blocks.length % 2 ^ 32, 12) := by
  have hshape : writeMSH m
      = leBytes 4 m.block_header.fileType ++ (leBytes 4 m.block_header.verID
        ++ (leBytes 4 m.blocks.length ++ (leBytes 32 m.block_header.notUsed
          ++ (m.blocks.map writeBlock).flatten))) := by
    simp only [writeMSH, writeBlockHeader, List.append_assoc]
  have hfull : grab (writeMSH m) 0 ((writeMSH m).length) = writeMSH m := by
    rw [grab]
    simp
  rw [hshape] at hfull
  have hlen : (leBytes 4 m.block_header.fileType ++ (leBytes 4 m.block_header.verID
      ++ (leBytes 4 m.blocks.length ++ (leBytes 32 m.block_header.notUsed
        ++ (m.blocks.map writeBlock).flatten)))).length
      = 4 + (4 + (4 + (leBytes 32 m.block_header.notUsed
          ++ (m.blocks.map writeBlock).flatten).length)) := by
    simp only [List.length_append, leBytes_length]
  rw [hlen] at hfull
  have hb0 : 0 + (4 + (4 + (4 + (leBytes 32 m.block_header.notUsed
      ++ (m.blocks.map writeBlock).flatten).length)))
      ≤ (leBytes 4 m.block_header.fileType ++ (leBytes 4 m.block_header.verID
        ++ (leBytes 4 m.blocks.length ++ (leBytes 32 m.block_header.notUsed
          ++ (m.blocks.map writeBlock).flatten)))).length := by
    simp only [List.length_append, leBytes_length]
    omega
  obtain ⟨g1, g2⟩ := grab_split hb0 hfull (leBytes_length 4 m.block_header.fileType)
  obtain ⟨g3, g4⟩ := grab_split (by omega) g2 (leBytes_length 4 m.block_header.verID)
  obtain ⟨g5, g6⟩ := grab_split (by omega) g4 (leBytes_length 4 m.blocks.length)
  rw [show (0 : Nat) + 4 + 4 = 8 from rfl] at g5
  rw [hshape]
  show readBlob 4 _ 8 = _
  have hble : (8 : Nat) + 4 ≤ (leBytes 4 m.block_header.fileType
      ++ (leBytes 4 m.block_header.verID
        ++ (leBytes 4 m.blocks.length ++ (leBytes 32 m.block_header.notUsed
          ++ (m.blocks.map writeBlock).flatten)))).length := by
    simp only [List.length_append, leBytes_length]
    omega
  rw [readBlob, if_pos hble, g5, leVal_leBytes]

/-! ## The claims -/

/-- C1 (amended): the claim asserts the encode/decode round trip returns the
decoded graph with only the suppressed end-of-optionals flags cleared.  That
holds on well-formed graphs — field bounds, header count matching the block
list, probe-tag freedom, and a sibling-free root in every block: encoding
and re-decoding yields exactly the `clear*` image, consuming every byte.
The root-sibling condition is genuinely needed (see the counterexample), so
the claim as stated over all decode images is false. -/
theorem roundtrip_decode_encode_wf {m : MSH} (hwf : wfMSH m = true) :
    decodeMSH (writeMSH m) = .ok (clearMSH m, (writeMSH m).length) :=
  decodeMSH_writeMSH hwf

/-- Witness: the one-block graph `f1` is well-formed and round-trips. -/
theorem roundtrip_decode_encode_wf_witness :
    wfMSH f1 = true
      ∧ decodeMSH (writeMSH f1) = .ok (clearMSH f1, (writeMSH f1).length) :=
  ⟨rfl, roundtrip_decode_encode_wf rfl⟩

/-- C1 counterexample: `sStream` decodes successfully to `exG`, whose root
mesh carries a sibling; re-encoding `exG` and decoding the result fails
with `InvalidFormat` instead of returning the cleared graph.  The encoder
emits the root's sibling after the root's own `END` marker, where the
decode loop has already left the mesh tree. -/
theorem roundtrip_root_sibling_counterexample :
    decodeMSH sStream = .ok (exG, 432)
      ∧ exG.blocks.map (fun b => b.root.sibling.isNone) = [false]
      ∧ decodeMSH (writeMSH exG) = .error .invalidFormat :=
  ⟨rfl, rfl, rfl⟩

/-- C2 (amended): on a well-formed block — in particular one whose vertex
groups and bucky descriptors never alias the optional-record probe tags —
encoding with `write_mesh` and re-decoding reproduces the block exactly
(up to cleared end-of-optionals flags), and in particular the decoded root
has the same child/sibling skeleton, i.e. the same ordered child list at
every node and depth.  Probe-tag freedom is genuinely needed (see the
counterexample), so the claim over all blocks is false. -/
theorem tree_shape_roundtrip_wf {bk : Block} (hwf : wfBlock bk = true) :
    readBlock (writeBlock bk) 0 = .ok (clearBlock bk, (writeBlock bk).length)
      ∧ sameShape (clearBlock bk).root bk.root = true := by
  constructor
  · have h := readBlock_consumes hwf (writeBlock bk) 0 (by rw [grab]; simp) (by omega)
    rw [Nat.zero_add] at h
    exact h
  · exact sameShape_clear (Mesh.size bk.root) bk.root (Nat.le_refl _)

/-- Witness: the block `bkW`, whose root has one child, round-trips with
its shape preserved. -/
theorem tree_shape_roundtrip_wf_witness :
    wfBlock bkW = true
      ∧ (readBlock (writeBlock bkW) 0 = .ok (clearBlock bkW, (writeBlock bkW).length)
        ∧ sameShape (clearBlock bkW).root bkW.root = true) :=
  ⟨rfl, tree_shape_roundtrip_wf rfl⟩

/-- C2 counterexample: `bkBad`'s root has exactly one child, but that
child's second vertex group stores `state_index = MSH_MATERIAL`; on decode
the optional-record probe after the first vertex group consumes it as a
material tag and the decode fails, so no child list is reproduced at
all. -/
theorem tree_shape_state_index_alias_counterexample :
    childList rootBad = [Mesh.mk mbBad OMesh.none OMesh.none]
      ∧ readBlock (writeBlock bkBad) 0 = .error .truncated :=
  ⟨rfl, rfl⟩

/-- C3 (amended): when the probed 4-byte value matches neither the material
tag nor the texture tag, both optional slots decode as absent and no error
is raised — but the cursor is rewound over every non-matching probe: it
ends exactly where it started, or 4 bytes later when the value is the
end-of-optionals sentinel.  It never ends 8 bytes later as claimed. -/
theorem optional_probe_miss_cursor {X : Nat} (hX : X < 2 ^ 32)
    (hne1 : X ≠ MSH_MATERIAL) (hne2 : X ≠ MSH_TEXTURE) (d : List Nat) (p : Nat)
    (hg : grab d p 4 = leBytes 4 X) (hb : p + 4 ≤ d.length) :
    read_optional_blocks d p
      = .ok ((none, none, X == MSH_END_OF_OPTIONALS),
          if X = MSH_END_OF_OPTIONALS then p + 4 else p) := by
  by_cases hE : X = MSH_END_OF_OPTIONALS
  · subst hE
    rw [if_pos rfl]
    simp only [beq_self_eq_true]
    exact opt_case_eoo hg hb
  · rw [if_neg hE]
    have hbeq : (X == MSH_END_OF_OPTIONALS) = false := by
      simp [hE]
    rw [hbeq]
    have h := opt_case_nn hX hne1 hne2 hE d p rfl hg hb
    simp only [List.length_nil, Nat.add_zero] at h
    exact h

/-- Witness: probing the bytes of the value 5. -/
theorem optional_probe_miss_cursor_witness :
    (5 : Nat) < 2 ^ 32 ∧ (5 : Nat) ≠ MSH_MATERIAL ∧ (5 : Nat) ≠ MSH_TEXTURE
      ∧ read_optional_blocks [5, 0, 0, 0] 0
          = .ok ((none, none, (5 : Nat) == MSH_END_OF_OPTIONALS),
              if (5 : Nat) = MSH_END_OF_OPTIONALS then 0 + 4 else 0) :=
  ⟨by decide, by decide, by decide,
    optional_probe_miss_cursor (by decide) (by decide) (by decide) [5, 0, 0, 0] 0 rfl
      (by decide)⟩

/-- C3 counterexample: on four zero bytes — matching no tag — the cursor
stays at 0, not at the claimed start + 8. -/
theorem optional_probe_miss_cursor_counterexample :
    read_optional_blocks [0, 0, 0, 0] 0 = .ok ((none, none, false), 0)
      ∧ (0 : Nat) ≠ 0 + 8 :=
  ⟨rfl, by decide⟩

/-- C4 (amended): only `Mesh.read` rejects a zero-length decoded name: when
the shared name-reading pattern returns the empty name, the mesh-body read
fails with `ZeroLengthName` and populates nothing.  The other name-carrying
records accept an empty name (see the counterexample). -/
theorem mesh_zero_length_name_error {d : List Nat} {p p1 : Nat} {nm : List Nat}
    (h : readName d p = .ok (nm, p1)) (hz : nm.length = 0) :
    readMeshBody d p = .error .zeroLengthName := by
  unfold readMeshBody
  rw [h]
  show (if nm.length = 0 then Except.error MshErr.zeroLengthName
      else readMeshBodyRest nm d p1) = Except.error MshErr.zeroLengthName
  rw [if_pos hz]

/-- Witness: the 3-byte encoding of an empty name. -/
theorem mesh_zero_length_name_error_witness :
    readName [1, 0, 0] 0 = .ok ([], 3)
      ∧ readMeshBody [1, 0, 0] 0 = .error .zeroLengthName :=
  ⟨rfl, mesh_zero_length_name_error
    (show readName [1, 0, 0] 0 = Except.ok ([], 3) from rfl) rfl⟩

/-- C4 counterexample: `Material.read` accepts a record whose name has
length 0 after stripping the terminator — no `ZeroLengthName` error. -/
theorem material_empty_name_counterexample :
    matE.name.length = 0
      ∧ readMaterial (writeMaterialBody matE) 0 = .ok (matE, 71) :=
  ⟨rfl, rfl⟩

/-- C5: inside the mesh-tree loop, a 4-byte marker that is none of `CHILD`,
`SIBLING` or `END` makes the decode fail immediately with `UnknownBlock`
carrying that value, read at exactly that marker's offset; the arena is
discarded, nothing is attached, and no resynchronization occurs. -/
theorem unknown_marker_error {d : List Nat} {fuel p oc dep : Nat} {stack : List Nat}
    {arena : List MeshNode} {v : Nat} (hoc : oc ≠ 0)
    (hread : readU32 d p = .ok (v, p + 4))
    (h1 : v ≠ MSH_CHILD) (h2 : v ≠ MSH_SIBLING) (h3 : v ≠ MSH_END) :
    meshLoop d (fuel + 1) p oc dep stack arena = .error (.unknownBlock v) :=
  meshLoop_step_unknown hoc hread h1 h2 h3

/-- Witness: the marker value 6 aborts the loop. -/
theorem unknown_marker_error_witness :
    (1 : Nat) ≠ 0 ∧ readU32 [6, 0, 0, 0] 0 = .ok (6, 0 + 4)
      ∧ meshLoop [6, 0, 0, 0] (0 + 1) 0 1 0 [] [] = .error (.unknownBlock 6) :=
  ⟨by decide, rfl,
    unknown_marker_error (by decide) rfl (by decide) (by decide) (by decide)⟩

/-- C6: once the block body has been read, the trailing 4-byte marker is
compared to `MSH_EOF`; if reading those bytes does not yield exactly
`MSH_EOF` — whether they hold another value or the stream is truncated —
the whole block decode fails with `InvalidFormat`. -/
theorem missing_eof_invalid_format {d : List Nat} {p p1 : Nat} {bk : Block}
    (hcore : readBlockCore d p = .ok (bk, p1))
    (hnoeof : readU32 d p1 ≠ .ok (MSH_EOF, p1 + 4)) :
    readBlock d p = .error .invalidFormat := by
  unfold readBlock
  rw [P.bind_ok hcore]
  show (checkEof >>= fun _ => pure bk) d p1 = Except.error MshErr.invalidFormat
  cases hre : readU32 d p1 with
  | error e =>
    have hce : checkEof d p1 = .error .invalidFormat := by
      unfold checkEof
      rw [hre]
    rw [P.bind_err hce]
  | ok vp =>
    obtain ⟨v, q⟩ := vp
    have hq : q = p1 + 4 := readBlob_ok_pos hre
    subst hq
    have hv : v ≠ MSH_EOF := by
      intro he
      exact hnoeof (by rw [hre, he])
    have hce : checkEof d p1 = .error .invalidFormat := by
      unfold checkEof
      rw [hre]
      show (if v = MSH_EOF then Except.ok ((), p1 + 4)
          else Except.error MshErr.invalidFormat) = Except.error MshErr.invalidFormat
      rw [if_neg hv]
    rw [P.bind_err hce]

/-- Witness: `blk`'s encoding with its `MSH_EOF` marker zeroed. -/
theorem missing_eof_invalid_format_witness :
    readBlockCore dW 0 = .ok (clearBlock blk, 276)
      ∧ readU32 dW 276 ≠ .ok (MSH_EOF, 276 + 4)
      ∧ readBlock dW 0 = .error .invalidFormat := by
  have hno : readU32 dW 276 ≠ Except.ok (MSH_EOF, 276 + 4) := by
    intro h
    have h0 : readU32 dW 276 = Except.ok (0, 280) := rfl
    rw [h0] at h
    injection h with h1
    injection h1 with ha hb
    exact absurd ha (by norm_num [MSH_EOF])
  exact ⟨rfl, hno, missing_eof_invalid_format
    (show readBlockCore dW 0 = Except.ok (clearBlock blk, 276) from rfl) hno⟩

/-- C7: decoding a skin-weight table of N containers with Mᵢ pairs each
consumes exactly 4 + Σᵢ (4 + 6·Mᵢ) bytes — each pair being a 4-byte weight
then a 2-byte index — and returns exactly those N lists. -/
theorem vert_to_state_byte_count {lst : List VertIndexContainer}
    (hlen : lst.length < 2 ^ 32) (hall : lst.all wfVts = true) (d : List Nat) (p : Nat)
    (hg : grab d p (writeCounted writeVtsContainer lst).length
        = writeCounted writeVtsContainer lst)
    (hb : p + (writeCounted writeVtsContainer lst).length ≤ d.length) :
    readVertToState d p
      = .ok (lst, p + (4 + (lst.map (fun c => 4 + 6 * c.array.length)).sum)) := by
  have h := readVertToState_consumes hlen hall d p hg hb
  rw [writeCounted_vts_length] at h
  exact h

/-- Witness: a two-container table with 2 and 1 pairs, 30 bytes. -/
theorem vert_to_state_byte_count_witness :
    vts0.length < 2 ^ 32 ∧ vts0.all wfVts = true
      ∧ readVertToState (writeCounted writeVtsContainer vts0) 0
          = .ok (vts0, 0 + (4 + (vts0.map (fun c => 4 + 6 * c.array.length)).sum)) :=
  ⟨by decide, rfl,
    vert_to_state_byte_count (show vts0.length < 2 ^ 32 from by decide)
      (show vts0.all wfVts = true from rfl) (writeCounted writeVtsContainer vts0) 0 rfl
      (by decide)⟩

/-- C8 (amended): the encoder recomputes the header's count field from the
held block list, but the field is a 4-byte `c_uint32`: the bytes written at
offset 8 decode to the block-list length reduced modulo 2^32, so for lists
of 2^32 or more blocks the header still disagrees with the body (see the
counterexample); below 2^32 they agree. -/
theorem header_block_count_mod (m : MSH) :
    readU32 (writeMSH m) 8 = .ok (m.blocks.length % 2 ^ 32, 12) :=
  readU32_writeMSH_count m

/-- C8 counterexample: with exactly 2^32 blocks the encoded count field
reads back 0. -/
theorem header_block_count_wrap_counterexample :
    readU32 (writeMSH ⟨⟨0, 0, 0, 0⟩, List.replicate (2 ^ 32) blk⟩) 8 = .ok (0, 12)
      ∧ (MSH.mk ⟨0, 0, 0, 0⟩ (List.replicate (2 ^ 32) blk)).blocks.length = 2 ^ 32
      ∧ (0 : Nat) ≠ 2 ^ 32 := by
  have hproj : (MSH.mk ⟨0, 0, 0, 0⟩ (List.replicate (2 ^ 32) blk)).blocks
      = List.replicate (2 ^ 32) blk := rfl
  refine ⟨?_, ?_, by norm_num⟩
  · have h := readU32_writeMSH_count ⟨⟨0, 0, 0, 0⟩, List.replicate (2 ^ 32) blk⟩
    rw [hproj, List.length_replicate, Nat.mod_self] at h
    exact h
  · rw [hproj, List.length_replicate]

/-- C9: when the probed 4-byte value matches none of the three tags, all
three probes rewind: both slots decode absent, the flag is false, and the
cursor is exactly where it started. -/
theorem optional_probe_all_miss_frame {X : Nat} (hX : X < 2 ^ 32)
    (hne1 : X ≠ MSH_MATERIAL) (hne2 : X ≠ MSH_TEXTURE)
    (hne3 : X ≠ MSH_END_OF_OPTIONALS) (d : List Nat) (p : Nat)
    (hg : grab d p 4 = leBytes 4 X) (hb : p + 4 ≤ d.length) :
    read_optional_blocks d p = .ok ((none, none, false), p) := by
  have h := opt_case_nn hX hne1 hne2 hne3 d p rfl hg hb
  simp only [List.length_nil, Nat.add_zero] at h
  exact h

/-- Witness: probing the bytes of the value 7. -/
theorem optional_probe_all_miss_frame_witness :
    (7 : Nat) < 2 ^ 32 ∧ (7 : Nat) ≠ MSH_MATERIAL ∧ (7 : Nat) ≠ MSH_TEXTURE
      ∧ (7 : Nat) ≠ MSH_END_OF_OPTIONALS
      ∧ read_optional_blocks [7, 0, 0, 0] 0 = .ok ((none, none, false), 0) :=
  ⟨by decide, by decide, by decide, by decide,
    optional_probe_all_miss_frame (show (7 : Nat) < 2 ^ 32 from by decide)
      (show (7 : Nat) ≠ MSH_MATERIAL from by decide)
      (show (7 : Nat) ≠ MSH_TEXTURE from by decide)
      (show (7 : Nat) ≠ MSH_END_OF_OPTIONALS from by decide)
      [7, 0, 0, 0] 0 rfl (by decide)⟩

/-- C10: the per-container length prefix of the skin-weight table is the
stored `count` field (as a `c_uint32`), while the records written after it
are the array elements — 6 bytes each.  When `count` differs from the array
length the prefix disagrees with the records actually written. -/
theorem vts_prefix_stored_count (c : VertIndexContainer) :
    readU32 (writeVtsContainer c) 0 = .ok (c.count % 2 ^ 32, 4)
      ∧ (writeVtsContainer c).length = 4 + 6 * c.array.length := by
  refine ⟨?_, writeVtsContainer_length c⟩
  have hgrab : grab (writeVtsContainer c) 0 4 = leBytes 4 c.count := by
    rw [grab, List.drop_zero]
    show (leBytes 4 c.count ++
        (c.array.map (fun v => leBytes 4 v.weight ++ leBytes 2 v.index)).flatten).take 4
      = leBytes 4 c.count
    have h := List.take_left (leBytes 4 c.count)
      ((c.array.map (fun v => leBytes 4 v.weight ++ leBytes 2 v.index)).flatten)
    rw [leBytes_length] at h
    exact h
  show readBlob 4 (writeVtsContainer c) 0 = _
  rw [readBlob, if_pos (show (0 : Nat) + 4 ≤ (writeVtsContainer c).length from by
    rw [writeVtsContainer_length]
    omega), hgrab, leVal_leBytes]

end Bz2msh
